import Mathlib

/-!
Verification of the jumpboot framed JSON transport, RPC server, bootstrap
loader and REPL bridge, as shallowly embedded Lean definitions translated
from the Python sources under `src/`.

The transport (`src/packages/jumpboot/jsonqueue.py`) serializes values with
the standard-library `json` module (`json.dumps(obj) + '\n'` on `put`,
`json.loads(buffer.strip())` on `get`).  The `json` module is external to
the repository, so it is modelled here by an executable encoder/decoder
pair over `JVal`, the Lean model of the JSON-representable Python values
(`None`, `bool`, `int`, `str`, `list`, `dict` with string keys; `float`
values are outside the model).  The encoder mirrors `json.dumps` with its
default arguments (separators `", "` and `": "`, `ensure_ascii=True`
including surrogate-pair `\uXXXX` escapes); the decoder mirrors the
`json.loads` scanner (strict strings, the `(0|[1-9]\d*)` integer rule,
whitespace skipping at the scanner's points).  Two deliberate model
restrictions, noted where they occur: floats/NaN/Infinity are absent, and
a lone surrogate escape is a parse failure (a Lean `Char` cannot hold it);
neither case is reachable from the encoder.
-/

namespace Jumpboot

/-- Model of the JSON-representable Python values handled by
`json.dumps`/`json.loads`: `None`, `bool`, `int`, `str`, `list`, `dict`
(string keys, as produced by parsing JSON).  Python dicts correspond to
entry lists with pairwise distinct keys. -/
inductive JVal where
  | null : JVal
  | bool (b : Bool) : JVal
  | num (n : Int) : JVal
  | str (s : String) : JVal
  | arr (elems : List JVal) : JVal
  | obj (entries : List (String × JVal)) : JVal

/-- Decimal digit character, `'0'`..`'9'`, for `d < 10`. -/
def digitChar (d : Nat) : Char := Char.ofNat (48 + d)

/-- Decimal digits of a natural number, most significant first, as printed
by Python `repr` on a non-negative `int` (no leading zeros; `0 ↦ "0"`). -/
def natChars (n : Nat) : List Char :=
  if _h : n < 10 then [digitChar n]
  else natChars (n / 10) ++ [digitChar (n % 10)]
  termination_by n
  decreasing_by exact Nat.div_lt_self (by omega) (by omega)

/-- Characters of Python `repr` of an `int`: optional minus sign followed
by the decimal digits. -/
def intChars (n : Int) : List Char :=
  if n < 0 then '-' :: natChars n.natAbs else natChars n.natAbs

/-- Lowercase hexadecimal digit character for `d < 16`, as used by the
`\uXXXX` escapes of `json.dumps`. -/
def hexChar (d : Nat) : Char :=
  if d < 10 then Char.ofNat (48 + d) else Char.ofNat (87 + d)

/-- Four lowercase hex digits of `n % 0x10000`, most significant first. -/
def hex4 (n : Nat) : List Char :=
  [hexChar (n / 4096 % 16), hexChar (n / 256 % 16), hexChar (n / 16 % 16), hexChar (n % 16)]

/-- Escape of one character inside a JSON string literal, following
`json.encoder.py_encode_basestring_ascii` (the `ensure_ascii=True` default
of `json.dumps`): the two-character escapes of `ESCAPE_DCT`, `\uXXXX` for
the remaining characters outside `0x20..0x7e`, and a surrogate pair for
code points at `0x10000` and above. -/
def escapeChar (c : Char) : List Char :=
  if c = '"' then ['\\', '"']
  else if c = '\\' then ['\\', '\\']
  else if c = '\x08' then ['\\', 'b']
  else if c = '\x0c' then ['\\', 'f']
  else if c = '\n' then ['\\', 'n']
  else if c = '\r' then ['\\', 'r']
  else if c = '\t' then ['\\', 't']
  else if c.toNat < 0x20 then '\\' :: 'u' :: hex4 c.toNat
  else if c.toNat < 0x7f then [c]
  else if c.toNat < 0x10000 then '\\' :: 'u' :: hex4 c.toNat
  else
    '\\' :: 'u' :: hex4 (0xd800 + (c.toNat - 0x10000) / 1024) ++
      '\\' :: 'u' :: hex4 (0xdc00 + (c.toNat - 0x10000) % 1024)

/-- Escapes of a character sequence, concatenated. -/
def escapeChars : List Char → List Char
  | [] => []
  | c :: cs => escapeChar c ++ escapeChars cs

/-- JSON string literal for `s`: quote, escaped characters, quote. -/
def encodeString (s : String) : List Char :=
  '"' :: escapeChars s.data ++ ['"']

mutual

/-- Characters emitted by `json.dumps` (default arguments) for a value:
item separator `", "`, key separator `": "`. -/
def encodeVal : JVal → List Char
  | JVal.null => ['n', 'u', 'l', 'l']
  | JVal.bool true => ['t', 'r', 'u', 'e']
  | JVal.bool false => ['f', 'a', 'l', 's', 'e']
  | JVal.num n => intChars n
  | JVal.str s => encodeString s
  | JVal.arr [] => ['[', ']']
  | JVal.arr (v :: vs) => '[' :: (encodeItems v vs ++ [']'])
  | JVal.obj [] => ['{', '}']
  | JVal.obj (e :: es) => '{' :: (encodeEntries e es ++ ['}'])
  termination_by v => sizeOf v

/-- Array elements joined by `", "`. -/
def encodeItems : JVal → List JVal → List Char
  | v, [] => encodeVal v
  | v, w :: ws => encodeVal v ++ ',' :: ' ' :: encodeItems w ws
  termination_by v vs => sizeOf v + sizeOf vs

/-- Object entries `key: value` joined by `", "`. -/
def encodeEntries : String × JVal → List (String × JVal) → List Char
  | (k, v), [] => encodeString k ++ ':' :: ' ' :: encodeVal v
  | (k, v), e2 :: es => encodeString k ++ ':' :: ' ' :: encodeVal v ++ ',' :: ' ' :: encodeEntries e2 es
  termination_by e es => sizeOf e + sizeOf es

end

/-- Model of `json.dumps(obj)` with its default arguments. -/
def dumps (v : JVal) : String := String.mk (encodeVal v)

/-! ### The decoder, mirroring the `json.loads` scanner -/

/-- JSON whitespace skipped by the `json.decoder` scanner (its
`WHITESPACE_STR` is `' \t\n\r'`). -/
def jsonWs (c : Char) : Bool :=
  c = ' ' || c = '\t' || c = '\n' || c = '\r'

/-- Skip scanner whitespace. -/
def skipWs (s : List Char) : List Char := s.dropWhile jsonWs

/-- The ASCII whitespace stripped by Python `str.strip()` with no
argument (`str.isspace` further covers some non-ASCII characters, which
never occur at the ends of encoder output, so they are immaterial to the
uses below). -/
def pyWs (c : Char) : Bool :=
  c = ' ' || c = '\t' || c = '\n' || c = '\r' || c = '\x0b' || c = '\x0c'

/-- Model of Python `str.strip()` on a character list: drop leading and
trailing whitespace. -/
def pyStrip (l : List Char) : List Char :=
  (((l.dropWhile pyWs).reverse).dropWhile pyWs).reverse

/-- Numeric value of a hexadecimal digit character, upper or lower case,
as accepted after `\u` by `json.decoder`. -/
def hexVal (c : Char) : Option Nat :=
  if 48 ≤ c.toNat ∧ c.toNat ≤ 57 then some (c.toNat - 48)
  else if 97 ≤ c.toNat ∧ c.toNat ≤ 102 then some (c.toNat - 87)
  else if 65 ≤ c.toNat ∧ c.toNat ≤ 70 then some (c.toNat - 55)
  else none

/-- Value of four hex digits, most significant first. -/
def hex4Val (h1 h2 h3 h4 : Char) : Option Nat :=
  match hexVal h1, hexVal h2, hexVal h3, hexVal h4 with
  | some d1, some d2, some d3, some d4 => some (d1 * 4096 + d2 * 256 + d3 * 16 + d4)
  | _, _, _, _ => none

/-- Decoding of the two-character escapes accepted by `json.decoder`'s
`BACKSLASH` table (`\u` is handled separately). -/
def escDecode (e : Char) : Option Char :=
  if e = '"' then some '"'
  else if e = '\\' then some '\\'
  else if e = '/' then some '/'
  else if e = 'b' then some '\x08'
  else if e = 'f' then some '\x0c'
  else if e = 'n' then some '\n'
  else if e = 'r' then some '\r'
  else if e = 't' then some '\t'
  else none

mutual

/-- Body of a JSON string literal after the opening quote, mirroring
`json.decoder.py_scanstring` with `strict=True`: returns the decoded
characters and the input after the closing quote.  Strict mode rejects
raw control characters inside the literal. -/
def parseStr : List Char → Option (List Char × List Char)
  | [] => none
  | c :: r =>
    if c = '"' then some ([], r)
    else if c = '\\' then parseEsc r
    else if c.toNat < 0x20 then none
    else (parseStr r).map (fun p => (c :: p.1, p.2))
  termination_by s => s.length

/-- Continuation after a backslash: either a `\uXXXX` escape or one of the
two-character escapes of the `BACKSLASH` table. -/
def parseEsc : List Char → Option (List Char × List Char)
  | [] => none
  | e :: r1 =>
    if e = 'u' then parseU r1
    else (escDecode e).bind fun d => (parseStr r1).map fun p => (d :: p.1, p.2)
  termination_by s => s.length

/-- Continuation after `\u`: four hex digits, then possibly a low-surrogate
partner.  Surrogate escape pairs are combined into one code point; a lone
surrogate escape, which Python would keep as a lone-surrogate `str`
element, has no `Char` counterpart and is a parse failure of the model
(never produced by the encoder). -/
def parseU : List Char → Option (List Char × List Char)
  | h1 :: h2 :: h3 :: h4 :: r2 =>
    (hex4Val h1 h2 h3 h4).bind fun n =>
      if 0xd800 ≤ n ∧ n ≤ 0xdbff then parseLowSur n r2
      else if 0xdc00 ≤ n ∧ n ≤ 0xdfff then none
      else (parseStr r2).map fun p => (Char.ofNat n :: p.1, p.2)
  | _ => none
  termination_by s => s.length

/-- Continuation after a high-surrogate `\uXXXX` with value `n`: a low
surrogate escape must follow, and the pair combines into one code point. -/
def parseLowSur (n : Nat) : List Char → Option (List Char × List Char)
  | b :: u :: g1 :: g2 :: g3 :: g4 :: r3 =>
    if b = '\\' ∧ u = 'u' then
      (hex4Val g1 g2 g3 g4).bind fun m =>
        if 0xdc00 ≤ m ∧ m ≤ 0xdfff then
          (parseStr r3).map fun p =>
            (Char.ofNat (0x10000 + (n - 0xd800) * 1024 + (m - 0xdc00)) :: p.1, p.2)
        else none
    else none
  | _ => none
  termination_by s => s.length

end

/-- Value of a run of decimal digit characters, most significant first. -/
def digitsToNat (ds : List Char) : Nat :=
  ds.foldl (fun acc c => acc * 10 + (c.toNat - 48)) 0

/-- After the integer part of a number, `json.loads` would go on to parse
a fraction or exponent as a `float`; floats are outside this model, so
those continuations are parse failures (the encoder never emits them). -/
def floatGuard (n : Nat) (rest : List Char) : Option (Nat × List Char) :=
  match rest with
  | [] => some (n, [])
  | c :: r => if c = '.' ∨ c = 'e' ∨ c = 'E' then none else some (n, c :: r)

/-- Unsigned integer part per `json.scanner`'s `NUMBER_RE` rule
`(0|[1-9]\d*)`: a leading `'0'` matches alone, otherwise a maximal run of
digits. -/
def parsePosNum : List Char → Option (Nat × List Char)
  | [] => none
  | c :: r =>
    if c = '0' then floatGuard 0 r
    else if c.isDigit then
      floatGuard (digitsToNat ((c :: r).takeWhile Char.isDigit)) ((c :: r).dropWhile Char.isDigit)
    else none

/-- Dispatch of `json.scanner.py_make_scanner`'s `_scan_once` on the next
character (string, object, array, `null`, `true`, `false`, then the
number rule; `NaN`/`Infinity` floats are outside the model).  The
non-empty object-body and array-body parsers are passed in, as
`json.decoder` passes `scan_once` into `JSONObject` and `JSONArray`. -/
def parseValBody (pEntries : List Char → Option (List (String × JVal) × List Char))
    (pItems : List Char → Option (List JVal × List Char)) :
    List Char → Option (JVal × List Char)
  | [] => none
  | c :: r =>
    if c = '"' then (parseStr r).map fun p => (JVal.str (String.mk p.1), p.2)
    else if c = '{' then
      match skipWs r with
      | [] => none
      | d :: r2 =>
        if d = '}' then some (JVal.obj [], r2)
        else (pEntries (d :: r2)).map fun p => (JVal.obj p.1, p.2)
    else if c = '[' then
      match skipWs r with
      | [] => none
      | d :: r2 =>
        if d = ']' then some (JVal.arr [], r2)
        else (pItems (d :: r2)).map fun p => (JVal.arr p.1, p.2)
    else if c = 'n' then
      match r with
      | u :: l1 :: l2 :: r2 =>
        if u = 'u' ∧ l1 = 'l' ∧ l2 = 'l' then some (JVal.null, r2) else none
      | _ => none
    else if c = 't' then
      match r with
      | a1 :: a2 :: a3 :: r2 =>
        if a1 = 'r' ∧ a2 = 'u' ∧ a3 = 'e' then some (JVal.bool true, r2) else none
      | _ => none
    else if c = 'f' then
      match r with
      | a1 :: a2 :: a3 :: a4 :: r2 =>
        if a1 = 'a' ∧ a2 = 'l' ∧ a3 = 's' ∧ a4 = 'e' then some (JVal.bool false, r2)
        else none
      | _ => none
    else if c = '-' then
      (parsePosNum r).map fun p => (JVal.num (-(p.1 : Int)), p.2)
    else (parsePosNum (c :: r)).map fun p => (JVal.num (p.1 : Int), p.2)

/-- Body of the array-element loop of `json.decoder.JSONArray`, with the
value parser and the rest-of-loop continuation supplied. -/
def parseItemsBody (pVal : List Char → Option (JVal × List Char))
    (pItems : List Char → Option (List JVal × List Char))
    (s : List Char) : Option (List JVal × List Char) :=
  (pVal s).bind fun p =>
    match skipWs p.2 with
    | [] => none
    | d :: r2 =>
      if d = ',' then (pItems (skipWs r2)).map fun q => (p.1 :: q.1, q.2)
      else if d = ']' then some ([p.1], r2)
      else none

/-- Body of the entry loop of `json.decoder.JSONObject`, with the value
parser and the rest-of-loop continuation supplied. -/
def parseEntriesBody (pVal : List Char → Option (JVal × List Char))
    (pEntries : List Char → Option (List (String × JVal) × List Char)) :
    List Char → Option (List (String × JVal) × List Char)
  | [] => none
  | c :: r =>
    if c = '"' then
      (parseStr r).bind fun pk =>
        match skipWs pk.2 with
        | [] => none
        | d :: r2 =>
          if d = ':' then
            (pVal (skipWs r2)).bind fun pv =>
              match skipWs pv.2 with
              | [] => none
              | d2 :: r4 =>
                if d2 = ',' then
                  (pEntries (skipWs r4)).map fun q => ((String.mk pk.1, pv.1) :: q.1, q.2)
                else if d2 = '}' then some ([(String.mk pk.1, pv.1)], r4)
                else none
          else none
    else none

mutual

/-- Fueled `_scan_once`: the fuel bounds the nesting depth, and `loads`
supplies more fuel than any input can consume. -/
def parseVal : Nat → List Char → Option (JVal × List Char)
  | 0, _ => none
  | f + 1, s => parseValBody (parseEntries f) (parseItems f) s
  termination_by f _ => f

/-- Fueled elements of a non-empty JSON array body. -/
def parseItems : Nat → List Char → Option (List JVal × List Char)
  | 0, _ => none
  | f + 1, s => parseItemsBody (parseVal f) (parseItems f) s
  termination_by f _ => f

/-- Fueled entries of a non-empty JSON object body. -/
def parseEntries : Nat → List Char → Option (List (String × JVal) × List Char)
  | 0, _ => none
  | f + 1, s => parseEntriesBody (parseVal f) (parseEntries f) s
  termination_by f _ => f

end

/-- Model of `json.loads(s)`: skip leading whitespace, scan one value,
skip trailing whitespace, and require the input to be exhausted
(`json.decoder.JSONDecoder.decode` raises `Extra data` otherwise).
Returns `none` where `json.loads` raises `JSONDecodeError` (or would
produce a `float`, outside the model). -/
def loads (s : String) : Option JVal :=
  let cs := skipWs s.data
  match parseVal (cs.length + 1) cs with
  | some (v, rest) => if skipWs rest = [] then some v else none
  | none => none

/-! ### Round-trip of the string escapes -/

theorem toNat_ofNat {n : Nat} (h : Nat.isValidChar n) : (Char.ofNat n).toNat = n := by
  simp [Char.ofNat, h, Char.ofNatAux, Char.toNat, UInt32.toNat]

theorem char_valid_ranges (c : Char) :
    c.toNat < 0xd800 ∨ (0xe000 ≤ c.toNat ∧ c.toNat < 0x110000) := by
  rcases c.valid with h | ⟨h1, h2⟩
  · exact Or.inl h
  · exact Or.inr ⟨h1, h2⟩

theorem hexVal_hexChar (d : Nat) (h : d < 16) : hexVal (hexChar d) = some d := by
  have key : ∀ e, e < 16 → hexVal (hexChar e) = some e := by decide
  exact key d h

theorem hex4Val_hex4 (n : Nat) (h : n < 65536) :
    hex4Val (hexChar (n / 4096 % 16)) (hexChar (n / 256 % 16))
      (hexChar (n / 16 % 16)) (hexChar (n % 16)) = some n := by
  rw [hex4Val, hexVal_hexChar _ (by omega), hexVal_hexChar _ (by omega),
    hexVal_hexChar _ (by omega), hexVal_hexChar _ (by omega)]
  exact congrArg some (by omega)

theorem parseStr_close (r : List Char) : parseStr ('"' :: r) = some ([], r) := by
  rw [parseStr.eq_def]
  dsimp only
  rw [if_pos rfl]

theorem parseStr_plain (c : Char) (r : List Char) (h1 : c ≠ '"') (h2 : c ≠ '\\')
    (h3 : 0x20 ≤ c.toNat) :
    parseStr (c :: r) = (parseStr r).map fun p => (c :: p.1, p.2) := by
  rw [parseStr.eq_def]
  dsimp only
  rw [if_neg h1, if_neg h2, if_neg (by omega)]

theorem parseStr_backslash (e : Char) (r : List Char) :
    parseStr ('\\' :: e :: r) = parseEsc (e :: r) := by
  rw [parseStr.eq_def]
  dsimp only
  rw [if_neg (by decide : ¬ ('\\' : Char) = '"'), if_pos rfl]

theorem parseStr_twochar (c e : Char) (r : List Char) (he : escDecode e = some c)
    (hu : e ≠ 'u') :
    parseStr ('\\' :: e :: r) = (parseStr r).map fun p => (c :: p.1, p.2) := by
  rw [parseStr_backslash, parseEsc.eq_def]
  dsimp only
  rw [if_neg hu, he, Option.some_bind]

theorem parseStr_u (n : Nat) (r : List Char) (hlo : ¬ (0xd800 ≤ n ∧ n ≤ 0xdbff))
    (hhi : ¬ (0xdc00 ≤ n ∧ n ≤ 0xdfff)) (hn : n < 65536) :
    parseStr ('\\' :: 'u' :: hexChar (n / 4096 % 16) :: hexChar (n / 256 % 16) ::
        hexChar (n / 16 % 16) :: hexChar (n % 16) :: r) =
      (parseStr r).map fun p => (Char.ofNat n :: p.1, p.2) := by
  rw [parseStr_backslash, parseEsc.eq_def]
  dsimp only
  rw [if_pos rfl, parseU.eq_def]
  dsimp only
  rw [hex4Val_hex4 n hn, Option.some_bind]
  rw [if_neg hlo, if_neg hhi]

theorem parseStr_surrogate (n : Nat) (r : List Char) (h1 : 65536 ≤ n) (h2 : n < 1114112) :
    parseStr ('\\' :: 'u' :: hex4 (0xd800 + (n - 65536) / 1024) ++
        '\\' :: 'u' :: hex4 (0xdc00 + (n - 65536) % 1024) ++ r) =
      (parseStr r).map fun p => (Char.ofNat n :: p.1, p.2) := by
  have hd : (n - 65536) / 1024 < 1024 := by omega
  have hm : (n - 65536) % 1024 < 1024 := Nat.mod_lt _ (by omega)
  rw [hex4, hex4]
  simp only [List.cons_append, List.nil_append]
  rw [parseStr_backslash, parseEsc.eq_def]
  dsimp only
  rw [if_pos rfl, parseU.eq_def]
  dsimp only
  rw [hex4Val_hex4 _ (by omega), Option.some_bind]
  rw [if_pos (by omega), parseLowSur.eq_def]
  dsimp only
  rw [if_pos ⟨rfl, rfl⟩, hex4Val_hex4 _ (by omega), Option.some_bind]
  rw [if_pos (by omega)]
  have harg : 65536 + (55296 + (n - 65536) / 1024 - 55296) * 1024 +
      (56320 + (n - 65536) % 1024 - 56320) = n := by omega
  rw [harg]

/-- Each character's escape decodes back to the character in front of the
remainder of the literal. -/
theorem parseStr_escapeChar (c : Char) (r : List Char) :
    parseStr (escapeChar c ++ r) = (parseStr r).map fun p => (c :: p.1, p.2) := by
  rw [escapeChar]
  by_cases hq : c = '"'
  · subst hq; rw [if_pos rfl]; exact parseStr_twochar _ _ _ (by decide) (by decide)
  · rw [if_neg hq]
    by_cases hb : c = '\\'
    · subst hb; rw [if_pos rfl]; exact parseStr_twochar _ _ _ (by decide) (by decide)
    · rw [if_neg hb]
      by_cases h8 : c = '\x08'
      · subst h8; rw [if_pos rfl]; exact parseStr_twochar _ _ _ (by decide) (by decide)
      · rw [if_neg h8]
        by_cases hc : c = '\x0c'
        · subst hc; rw [if_pos rfl]; exact parseStr_twochar _ _ _ (by decide) (by decide)
        · rw [if_neg hc]
          by_cases hn : c = '\n'
          · subst hn; rw [if_pos rfl]; exact parseStr_twochar _ _ _ (by decide) (by decide)
          · rw [if_neg hn]
            by_cases hr : c = '\r'
            · subst hr; rw [if_pos rfl]; exact parseStr_twochar _ _ _ (by decide) (by decide)
            · rw [if_neg hr]
              by_cases ht : c = '\t'
              · subst ht; rw [if_pos rfl]
                exact parseStr_twochar _ _ _ (by decide) (by decide)
              · rw [if_neg ht]
                by_cases hctl : c.toNat < 0x20
                · rw [if_pos hctl, hex4, List.cons_append, List.cons_append]
                  simp only [List.cons_append, List.nil_append]
                  rw [parseStr_u c.toNat r (by omega) (by omega) (by omega),
                    Char.ofNat_toNat]
                · rw [if_neg hctl]
                  by_cases hascii : c.toNat < 0x7f
                  · rw [if_pos hascii, List.cons_append, List.nil_append]
                    exact parseStr_plain c r hq hb (by omega)
                  · rw [if_neg hascii]
                    rcases char_valid_ranges c with hv | ⟨hv1, hv2⟩
                    · by_cases hbmp : c.toNat < 0x10000
                      · rw [if_pos hbmp, hex4, List.cons_append, List.cons_append]
                        simp only [List.cons_append, List.nil_append]
                        rw [parseStr_u c.toNat r (by omega) (by omega) (by omega),
                          Char.ofNat_toNat]
                      · omega
                    · by_cases hbmp : c.toNat < 0x10000
                      · rw [if_pos hbmp, hex4, List.cons_append, List.cons_append]
                        simp only [List.cons_append, List.nil_append]
                        rw [parseStr_u c.toNat r (by omega) (by omega) (by omega),
                          Char.ofNat_toNat]
                      · rw [if_neg hbmp]
                        have := parseStr_surrogate c.toNat r (by omega) (by omega)
                        simp only [List.cons_append] at this ⊢
                        rw [this, Char.ofNat_toNat]

/-- The escaped body of a string literal, followed by the closing quote,
decodes back to the original characters. -/
theorem parseStr_escapeChars (cs : List Char) (rest : List Char) :
    parseStr (escapeChars cs ++ '"' :: rest) = some (cs, rest) := by
  induction cs with
  | nil => rw [escapeChars, List.nil_append, parseStr_close]
  | cons c cs ih =>
    rw [escapeChars, List.append_assoc, parseStr_escapeChar, ih]
    rfl

/-! ### Round-trip of integers -/

theorem digitChar_toNat (d : Nat) (h : d < 10) : (digitChar d).toNat = 48 + d := by
  rw [digitChar]
  exact toNat_ofNat (Or.inl (by omega))

/-- Structure of the decimal digits of `n`: a non-empty list of digit
characters whose leading digit is nonzero unless `n = 0`. -/
theorem natChars_spec (n : Nat) :
    ∃ c t, natChars n = c :: t ∧ (∀ d ∈ natChars n, 48 ≤ d.toNat ∧ d.toNat ≤ 57) ∧
      (1 ≤ n → c ≠ '0') := by
  induction n using Nat.strong_induction_on with
  | _ n ih =>
    rw [natChars]
    by_cases h : n < 10
    · rw [dif_pos h]
      refine ⟨digitChar n, [], rfl, ?_, ?_⟩
      · intro d hd
        rw [List.mem_singleton] at hd
        subst hd
        rw [digitChar_toNat n h]
        omega
      · intro h1 hc
        have := congrArg Char.toNat hc
        rw [digitChar_toNat n h] at this
        have h0 : ('0' : Char).toNat = 48 := rfl
        omega
    · rw [dif_neg h]
      obtain ⟨c, t, hrep, hdig, hlead⟩ := ih (n / 10) (Nat.div_lt_self (by omega) (by omega))
      refine ⟨c, t ++ [digitChar (n % 10)], by rw [hrep]; rfl, ?_, fun _ => hlead (by omega)⟩
      intro d hd
      rcases List.mem_append.mp hd with hd | hd
      · exact hdig d hd
      · rw [List.mem_singleton] at hd
        subst hd
        rw [digitChar_toNat _ (Nat.mod_lt _ (by omega))]
        omega

theorem digitsToNat_natChars (n : Nat) : digitsToNat (natChars n) = n := by
  induction n using Nat.strong_induction_on with
  | _ n ih =>
    rw [natChars]
    by_cases h : n < 10
    · rw [dif_pos h]
      rw [digitsToNat, List.foldl_cons, List.foldl_nil, digitChar_toNat n h]
      omega
    · rw [dif_neg h]
      have ihd := ih (n / 10) (Nat.div_lt_self (by omega) (by omega))
      rw [digitsToNat, List.foldl_append, List.foldl_cons, List.foldl_nil]
      rw [digitsToNat] at ihd
      rw [ihd, digitChar_toNat _ (Nat.mod_lt _ (by omega))]
      omega

/-- Splitting `takeWhile`/`dropWhile` at a known boundary. -/
theorem span_append (p : Char → Bool) (l r : List Char) (hl : ∀ c ∈ l, p c = true)
    (hr : ∀ c, r.head? = some c → p c = false) :
    (l ++ r).takeWhile p = l ∧ (l ++ r).dropWhile p = r := by
  induction l with
  | nil =>
    simp only [List.nil_append]
    cases r with
    | nil => exact ⟨rfl, rfl⟩
    | cons c r' =>
      rw [List.takeWhile_cons, List.dropWhile_cons, hr c rfl]
      exact ⟨rfl, rfl⟩
  | cons c l' ih =>
    have hc : p c = true := hl c (List.mem_cons_self c l')
    have ih' := ih (fun d hd => hl d (List.mem_cons_of_mem c hd))
    rw [List.cons_append, List.takeWhile_cons, List.dropWhile_cons, hc]
    simp only [if_true]
    exact ⟨by rw [ih'.1], ih'.2⟩

theorem isDigit_iff (c : Char) : c.isDigit = true ↔ 48 ≤ c.toNat ∧ c.toNat ≤ 57 := by
  simp only [Char.isDigit, Bool.and_eq_true, decide_eq_true_eq, Char.le_def, UInt32.le_def,
    BitVec.le_def, Char.toNat, UInt32.toNat]
  rw [show (UInt32.toBitVec 48).toNat = 48 from rfl, show (UInt32.toBitVec 57).toNat = 57 from rfl]

/-- Characters that may legitimately follow an encoded value inside a
line: nothing, or a separator/closer emitted by the encoder. -/
def SepBoundary (rest : List Char) : Prop :=
  ∀ c, rest.head? = some c → c = ',' ∨ c = ']' ∨ c = '}'

theorem sepBoundary_not_digit {rest : List Char} (hb : SepBoundary rest) :
    ∀ c, rest.head? = some c → Char.isDigit c = false := by
  intro c hc
  rcases hb c hc with h | h | h <;> subst h <;> decide

theorem sepBoundary_floatGuard {rest : List Char} (hb : SepBoundary rest) (n : Nat) :
    floatGuard n rest = some (n, rest) := by
  cases rest with
  | nil => rfl
  | cons c r =>
    rw [floatGuard]
    rcases hb c rfl with h | h | h <;> subst h <;> rw [if_neg (by decide)]

/-- The printed digits of `m`, followed by a separator boundary, scan back
to `m` under the `(0|[1-9]\d*)` rule. -/
theorem parsePosNum_natChars (m : Nat) (rest : List Char) (hb : SepBoundary rest) :
    parsePosNum (natChars m ++ rest) = some (m, rest) := by
  obtain ⟨c, t, hrep, hdig, hlead⟩ := natChars_spec m
  by_cases hz : m = 0
  · subst hz
    have h0 : natChars 0 = ['0'] := by
      rw [natChars, dif_pos (show (0 : Nat) < 10 by omega)]
      rfl
    rw [h0, List.cons_append, List.nil_append, parsePosNum, if_pos rfl]
    exact sepBoundary_floatGuard hb 0
  · have hspan := span_append Char.isDigit (natChars m) rest
      (fun d hd => (isDigit_iff d).mpr (hdig d hd))
      (sepBoundary_not_digit hb)
    rw [hrep] at hspan ⊢
    rw [List.cons_append, parsePosNum, if_neg (hlead (by omega)),
      if_pos ((isDigit_iff c).mpr (hdig c (by rw [hrep]; exact List.mem_cons_self c t)))]
    rw [← List.cons_append, hspan.1, hspan.2, ← hrep, digitsToNat_natChars]
    exact sepBoundary_floatGuard hb m

/-! ### Head characters of encoder output -/

theorem skipWs_nil : skipWs [] = [] := rfl

theorem skipWs_cons_false {c : Char} (r : List Char) (h : jsonWs c = false) :
    skipWs (c :: r) = c :: r := by
  rw [skipWs, List.dropWhile_cons, h]
  rfl

theorem skipWs_space (r : List Char) : skipWs (' ' :: r) = skipWs r := by
  rw [skipWs, List.dropWhile_cons, show jsonWs ' ' = true from rfl]
  rfl

theorem digit_not_special {c : Char} (h : 48 ≤ c.toNat ∧ c.toNat ≤ 57) :
    jsonWs c = false ∧ c ≠ ']' ∧ c ≠ '}' ∧ pyWs c = false := by
  refine ⟨?_, ?_, ?_, ?_⟩
  · simp only [jsonWs, Bool.or_eq_false_iff, decide_eq_false_iff_not]
    refine ⟨⟨⟨fun he => ?_, fun he => ?_⟩, fun he => ?_⟩, fun he => ?_⟩ <;>
      (rw [he] at h; exact absurd h (by decide))
  · intro he; rw [he] at h; exact absurd h (by decide)
  · intro he; rw [he] at h; exact absurd h (by decide)
  · simp only [pyWs, Bool.or_eq_false_iff, decide_eq_false_iff_not]
    refine ⟨⟨⟨⟨⟨fun he => ?_, fun he => ?_⟩, fun he => ?_⟩, fun he => ?_⟩, fun he => ?_⟩,
      fun he => ?_⟩ <;> (rw [he] at h; exact absurd h (by decide))

/-- Encoder output starts with a structural character or a digit or minus
sign — never whitespace and never a closer. -/
theorem encodeVal_head (v : JVal) :
    ∃ c t, encodeVal v = c :: t ∧ jsonWs c = false ∧ c ≠ ']' ∧ c ≠ '}' ∧ pyWs c = false := by
  cases v with
  | null => exact ⟨'n', _, by rw [encodeVal], by decide, by decide, by decide, by decide⟩
  | bool b =>
    cases b with
    | true => exact ⟨'t', _, by rw [encodeVal], by decide, by decide, by decide, by decide⟩
    | false => exact ⟨'f', _, by rw [encodeVal], by decide, by decide, by decide, by decide⟩
  | num n =>
    rw [encodeVal, intChars]
    by_cases hn : n < 0
    · exact ⟨'-', _, by rw [if_pos hn], by decide, by decide, by decide, by decide⟩
    · rw [if_neg hn]
      obtain ⟨c, t, hrep, hdig, _⟩ := natChars_spec n.natAbs
      have hfacts := digit_not_special (hdig c (by rw [hrep]; exact List.mem_cons_self c t))
      exact ⟨c, t, hrep, hfacts.1, hfacts.2.1, hfacts.2.2.1, hfacts.2.2.2⟩
  | str s =>
    exact ⟨'"', escapeChars s.data ++ ['"'],
      by rw [encodeVal, encodeString, List.cons_append], by decide, by decide, by decide,
      by decide⟩
  | arr vs =>
    cases vs with
    | nil => exact ⟨'[', _, by rw [encodeVal], by decide, by decide, by decide, by decide⟩
    | cons v vs => exact ⟨'[', _, by rw [encodeVal], by decide, by decide, by decide, by decide⟩
  | obj es =>
    cases es with
    | nil => exact ⟨'{', _, by rw [encodeVal], by decide, by decide, by decide, by decide⟩
    | cons e es =>
      exact ⟨'{', _, by rw [encodeVal], by decide, by decide, by decide, by decide⟩

theorem encodeItems_head (v : JVal) (vs : List JVal) :
    ∃ c t, encodeItems v vs = c :: t ∧ jsonWs c = false ∧ c ≠ ']' ∧ c ≠ '}' := by
  obtain ⟨c, t, hrep, h1, h2, h3, _⟩ := encodeVal_head v
  cases vs with
  | nil => exact ⟨c, t, by rw [encodeItems, hrep], h1, h2, h3⟩
  | cons w ws =>
    exact ⟨c, t ++ ',' :: ' ' :: encodeItems w ws,
      by rw [encodeItems, hrep, List.cons_append], h1, h2, h3⟩

theorem encodeEntries_head (e : String × JVal) (es : List (String × JVal)) :
    ∃ t, encodeEntries e es = '"' :: t := by
  obtain ⟨k, v⟩ := e
  cases es with
  | nil =>
    exact ⟨escapeChars k.data ++ '"' :: ':' :: ' ' :: encodeVal v, by
      rw [encodeEntries, encodeString]
      simp only [List.cons_append, List.append_assoc, List.singleton_append,
        List.nil_append]⟩
  | cons e2 es =>
    refine ⟨escapeChars k.data ++ '"' :: ':' :: ' ' ::
      (encodeVal v ++ ',' :: ' ' :: encodeEntries e2 es), ?_⟩
    rw [encodeEntries, encodeString]
    simp only [List.cons_append, List.append_assoc, List.singleton_append,
      List.nil_append]

/-- Dispatch of the scanner on an encoded integer. -/
theorem parseVal_num (g : Nat) (n : Int) (rest : List Char) (hb : SepBoundary rest) :
    parseVal (g + 1) (intChars n ++ rest) = some (JVal.num n, rest) := by
  rw [intChars]
  by_cases hn : n < 0
  · rw [if_pos hn, List.cons_append, parseVal, parseValBody.eq_def]
    dsimp only
    rw [if_neg (by decide), if_neg (by decide), if_neg (by decide), if_neg (by decide),
      if_neg (by decide), if_neg (by decide), if_pos rfl,
      parsePosNum_natChars n.natAbs rest hb]
    have harg : -((n.natAbs : Nat) : Int) = n := by omega
    rw [Option.map_some']
    rw [harg]
  · rw [if_neg hn]
    obtain ⟨c, t, hrep, hdig, _⟩ := natChars_spec n.natAbs
    have hd := hdig c (by rw [hrep]; exact List.mem_cons_self c t)
    rw [hrep, List.cons_append, parseVal, parseValBody.eq_def]
    dsimp only
    have hne : ∀ d : Char, d.toNat ≠ c.toNat → ¬ c = d := by
      intro d hdne he
      exact hdne (congrArg Char.toNat he).symm
    rw [if_neg (hne '"' (by change (34 : Nat) ≠ _; omega)),
      if_neg (hne '{' (by change (123 : Nat) ≠ _; omega)),
      if_neg (hne '[' (by change (91 : Nat) ≠ _; omega)),
      if_neg (hne 'n' (by change (110 : Nat) ≠ _; omega)),
      if_neg (hne 't' (by change (116 : Nat) ≠ _; omega)),
      if_neg (hne 'f' (by change (102 : Nat) ≠ _; omega)),
      if_neg (hne '-' (by change (45 : Nat) ≠ _; omega))]
    rw [← List.cons_append, ← hrep, parsePosNum_natChars n.natAbs rest hb, Option.map_some']
    have harg : ((n.natAbs : Nat) : Int) = n := by omega
    rw [harg]

/-! ### The round-trip of the whole scanner -/

theorem encodeEntries_nil (e : String × JVal) :
    encodeEntries e [] = encodeString e.1 ++ ':' :: ' ' :: encodeVal e.2 := by
  obtain ⟨k, v⟩ := e
  rw [encodeEntries]

theorem encodeEntries_cons (e e2 : String × JVal) (es : List (String × JVal)) :
    encodeEntries e (e2 :: es) =
      encodeString e.1 ++ ':' :: ' ' :: encodeVal e.2 ++ ',' :: ' ' :: encodeEntries e2 es := by
  obtain ⟨k, v⟩ := e
  rw [encodeEntries]

theorem jval_sizeOf_pos (v : JVal) : 0 < sizeOf v := by
  cases v <;> simp_arith

theorem sepBoundary_head (d : Char) (r : List Char) (hd : d = ',' ∨ d = ']' ∨ d = '}') :
    SepBoundary (d :: r) := by
  intro c hc
  rw [show (d :: r).head? = some d from rfl] at hc
  injection hc with h
  subst h
  exact hd

mutual

/-- What `json.dumps` emits for a value, the scanner reads back as that
value, leaving any separator-bounded remainder untouched. -/
theorem parseVal_encode (v : JVal) (rest : List Char) (f : Nat)
    (hf : (encodeVal v).length < f) (hb : SepBoundary rest) :
    parseVal f (encodeVal v ++ rest) = some (v, rest) := by
  obtain ⟨g, rfl⟩ : ∃ g, f = g + 1 := ⟨f - 1, by omega⟩
  cases v with
  | null =>
    rw [encodeVal]
    simp only [List.cons_append, List.nil_append]
    rw [parseVal, parseValBody.eq_def]
    dsimp only
    rw [if_neg (by decide), if_neg (by decide), if_neg (by decide), if_pos rfl,
      if_pos ⟨rfl, rfl, rfl⟩]
  | bool b =>
    cases b with
    | true =>
      rw [encodeVal]
      simp only [List.cons_append, List.nil_append]
      rw [parseVal, parseValBody.eq_def]
      dsimp only
      rw [if_neg (by decide), if_neg (by decide), if_neg (by decide), if_neg (by decide),
        if_pos rfl, if_pos ⟨rfl, rfl, rfl⟩]
    | false =>
      rw [encodeVal]
      simp only [List.cons_append, List.nil_append]
      rw [parseVal, parseValBody.eq_def]
      dsimp only
      rw [if_neg (by decide), if_neg (by decide), if_neg (by decide), if_neg (by decide),
        if_neg (by decide), if_pos rfl, if_pos ⟨rfl, rfl, rfl, rfl⟩]
  | num n =>
    rw [encodeVal]
    exact parseVal_num g n rest hb
  | str s =>
    rw [encodeVal, encodeString]
    simp only [List.cons_append, List.append_assoc, List.singleton_append, List.nil_append]
    rw [parseVal, parseValBody.eq_def]
    dsimp only
    rw [if_pos rfl, parseStr_escapeChars, Option.map_some']
  | arr vs =>
    cases vs with
    | nil =>
      rw [encodeVal]
      simp only [List.cons_append, List.nil_append]
      rw [parseVal, parseValBody.eq_def]
      dsimp only
      rw [if_neg (by decide), if_neg (by decide), if_pos rfl,
        skipWs_cons_false _ (by decide)]
      dsimp only
      rw [if_pos rfl]
    | cons v vs =>
      rw [encodeVal] at hf ⊢
      simp only [List.cons_append, List.append_assoc, List.singleton_append, List.nil_append] at hf ⊢
      simp only [List.length_cons, List.length_append, List.length_singleton] at hf
      rw [parseVal, parseValBody.eq_def]
      dsimp only
      rw [if_neg (by decide), if_neg (by decide), if_pos rfl]
      obtain ⟨c, t, hrep, hws, hne1, _⟩ := encodeItems_head v vs
      rw [hrep, List.cons_append, skipWs_cons_false _ hws]
      dsimp only
      rw [if_neg hne1, ← List.cons_append, ← hrep,
        parseItems_encode v vs rest g (by omega), Option.map_some']
  | obj es =>
    cases es with
    | nil =>
      rw [encodeVal]
      simp only [List.cons_append, List.nil_append]
      rw [parseVal, parseValBody.eq_def]
      dsimp only
      rw [if_neg (by decide), if_pos rfl, skipWs_cons_false _ (by decide)]
      dsimp only
      rw [if_pos rfl]
    | cons e es =>
      rw [encodeVal] at hf ⊢
      simp only [List.cons_append, List.append_assoc, List.singleton_append, List.nil_append] at hf ⊢
      simp only [List.length_cons, List.length_append, List.length_singleton] at hf
      rw [parseVal, parseValBody.eq_def]
      dsimp only
      rw [if_neg (by decide), if_pos rfl]
      obtain ⟨t, hrep⟩ := encodeEntries_head e es
      rw [hrep, List.cons_append, skipWs_cons_false _ (by decide)]
      dsimp only
      rw [if_neg (by decide), ← List.cons_append, ← hrep,
        parseEntries_encode e es rest g (by omega), Option.map_some']
  termination_by sizeOf v

/-- An encoded array body followed by `]` scans back to its elements. -/
theorem parseItems_encode (v : JVal) (vs : List JVal) (rest : List Char) (f : Nat)
    (hf : (encodeItems v vs).length + 1 < f) :
    parseItems f (encodeItems v vs ++ ']' :: rest) = some (v :: vs, rest) := by
  obtain ⟨g, rfl⟩ : ∃ g, f = g + 1 := ⟨f - 1, by omega⟩
  cases vs with
  | nil =>
    rw [encodeItems] at hf ⊢
    rw [parseItems, parseItemsBody,
      parseVal_encode v (']' :: rest) g (by omega) (sepBoundary_head _ _ (by tauto)),
      Option.some_bind]
    dsimp only
    rw [skipWs_cons_false _ (by decide)]
    dsimp only
    rw [if_neg (by decide), if_pos rfl]
  | cons w ws =>
    rw [encodeItems] at hf ⊢
    simp only [List.length_append, List.length_cons] at hf
    simp only [List.append_assoc, List.cons_append]
    rw [parseItems, parseItemsBody,
      parseVal_encode v _ g (by omega) (sepBoundary_head _ _ (by tauto)),
      Option.some_bind]
    dsimp only
    rw [skipWs_cons_false _ (by decide)]
    dsimp only
    rw [if_pos rfl, skipWs_space]
    obtain ⟨c, t, hrep, hws, _, _⟩ := encodeItems_head w ws
    rw [hrep, List.cons_append, skipWs_cons_false _ hws, ← List.cons_append, ← hrep,
      parseItems_encode w ws rest g (by omega), Option.map_some']
  termination_by sizeOf v + sizeOf vs

/-- An encoded object body followed by `}` scans back to its entries. -/
theorem parseEntries_encode (e : String × JVal) (es : List (String × JVal))
    (rest : List Char) (f : Nat) (hf : (encodeEntries e es).length + 1 < f) :
    parseEntries f (encodeEntries e es ++ '}' :: rest) = some (e :: es, rest) := by
  obtain ⟨g, rfl⟩ : ∃ g, f = g + 1 := ⟨f - 1, by omega⟩
  cases es with
  | nil =>
    rw [encodeEntries_nil, encodeString] at hf ⊢
    simp only [List.length_append, List.length_cons] at hf
    simp only [List.cons_append, List.append_assoc, List.singleton_append, List.nil_append]
    rw [parseEntries, parseEntriesBody.eq_def]
    dsimp only
    rw [if_pos rfl, parseStr_escapeChars, Option.some_bind]
    dsimp only
    rw [skipWs_cons_false _ (by decide)]
    dsimp only
    rw [if_pos rfl, skipWs_space]
    obtain ⟨c, t, hrep, hws, _, _, _⟩ := encodeVal_head e.2
    rw [hrep, List.cons_append, skipWs_cons_false _ hws, ← List.cons_append, ← hrep,
      parseVal_encode e.2 _ g (by omega) (sepBoundary_head _ _ (by tauto)),
      Option.some_bind]
    dsimp only
    rw [skipWs_cons_false _ (by decide)]
    dsimp only
    rw [if_neg (by decide), if_pos rfl]
  | cons e2 es =>
    rw [encodeEntries_cons, encodeString] at hf ⊢
    simp only [List.length_append, List.length_cons] at hf
    simp only [List.cons_append, List.append_assoc, List.singleton_append, List.nil_append]
    rw [parseEntries, parseEntriesBody.eq_def]
    dsimp only
    rw [if_pos rfl, parseStr_escapeChars, Option.some_bind]
    dsimp only
    rw [skipWs_cons_false _ (by decide)]
    dsimp only
    rw [if_pos rfl, skipWs_space]
    obtain ⟨c, t, hrep, hws, _, _, _⟩ := encodeVal_head e.2
    rw [hrep, List.cons_append, skipWs_cons_false _ hws, ← List.cons_append, ← hrep,
      parseVal_encode e.2 _ g (by omega) (sepBoundary_head _ _ (by tauto)),
      Option.some_bind]
    dsimp only
    rw [skipWs_cons_false _ (by decide)]
    dsimp only
    rw [if_pos rfl, skipWs_space]
    obtain ⟨t2, hrep2⟩ := encodeEntries_head e2 es
    rw [hrep2, List.cons_append, skipWs_cons_false _ (by decide), ← List.cons_append,
      ← hrep2, parseEntries_encode e2 es rest g (by omega), Option.map_some']
  termination_by sizeOf e + sizeOf es
  decreasing_by
    all_goals (try subst_vars)
    all_goals obtain ⟨k0, v0⟩ := e
    all_goals simp only [Prod.mk.sizeOf_spec, List.cons.sizeOf_spec, List.nil.sizeOf_spec]
    all_goals (have hp := jval_sizeOf_pos v0; omega)

end

/-- Decoding inverts encoding: the model of `json.loads` applied to the
model of `json.dumps` returns the original value. -/
theorem loads_dumps (v : JVal) : loads (dumps v) = some v := by
  obtain ⟨c, t, hrep, hws, _, _, _⟩ := encodeVal_head v
  have hskip : skipWs (encodeVal v) = encodeVal v := by
    rw [hrep]
    exact skipWs_cons_false _ hws
  have hparse := parseVal_encode v [] ((encodeVal v).length + 1) (by omega)
    (fun c hc => by rw [List.head?_nil] at hc; exact Option.noConfusion hc)
  rw [List.append_nil] at hparse
  rw [loads]
  rw [show (dumps v).data = encodeVal v from rfl, hskip, hparse]
  dsimp only
  rw [skipWs_nil, if_pos rfl]

/-! ### No raw newline in encoder output -/

theorem newline_notMem_hex4 (n : Nat) : '\n' ∉ hex4 n := by
  have key : ∀ d, d < 16 → ¬ hexChar d = '\n' := by decide
  intro hmem
  rw [hex4] at hmem
  simp only [List.mem_cons, List.not_mem_nil, or_false] at hmem
  rcases hmem with h | h | h | h <;> exact key _ (Nat.mod_lt _ (by omega)) h.symm

theorem newline_notMem_escapeChar (c : Char) : '\n' ∉ escapeChar c := by
  rw [escapeChar]
  by_cases h1 : c = '"'
  · rw [if_pos h1]; decide
  rw [if_neg h1]
  by_cases h2 : c = '\\'
  · rw [if_pos h2]; decide
  rw [if_neg h2]
  by_cases h3 : c = '\x08'
  · rw [if_pos h3]; decide
  rw [if_neg h3]
  by_cases h4 : c = '\x0c'
  · rw [if_pos h4]; decide
  rw [if_neg h4]
  by_cases h5 : c = '\n'
  · rw [if_pos h5]; decide
  rw [if_neg h5]
  by_cases h6 : c = '\r'
  · rw [if_pos h6]; decide
  rw [if_neg h6]
  by_cases h7 : c = '\t'
  · rw [if_pos h7]; decide
  rw [if_neg h7]
  by_cases h8 : c.toNat < 32
  · rw [if_pos h8]
    intro hmem
    simp only [List.mem_cons] at hmem
    rcases hmem with h | h | h
    · exact absurd h (by decide)
    · exact absurd h (by decide)
    · exact newline_notMem_hex4 _ h
  rw [if_neg h8]
  by_cases h9 : c.toNat < 127
  · rw [if_pos h9]
    intro hmem
    rw [List.mem_singleton] at hmem
    exact h5 hmem.symm
  rw [if_neg h9]
  by_cases h10 : c.toNat < 65536
  · rw [if_pos h10]
    intro hmem
    simp only [List.mem_cons] at hmem
    rcases hmem with h | h | h
    · exact absurd h (by decide)
    · exact absurd h (by decide)
    · exact newline_notMem_hex4 _ h
  rw [if_neg h10]
  intro hmem
  simp only [List.mem_append, List.mem_cons] at hmem
  rcases hmem with (h | h | h) | (h | h | h)
  · exact absurd h (by decide)
  · exact absurd h (by decide)
  · exact newline_notMem_hex4 _ h
  · exact absurd h (by decide)
  · exact absurd h (by decide)
  · exact newline_notMem_hex4 _ h

theorem newline_notMem_escapeChars (cs : List Char) : '\n' ∉ escapeChars cs := by
  induction cs with
  | nil => rw [escapeChars]; exact List.not_mem_nil _
  | cons c cs ih =>
    rw [escapeChars]
    intro hmem
    rcases List.mem_append.mp hmem with h | h
    · exact newline_notMem_escapeChar c h
    · exact ih h

theorem newline_notMem_encodeString (s : String) : '\n' ∉ encodeString s := by
  rw [encodeString, List.cons_append]
  intro hmem
  simp only [List.mem_cons, List.mem_append, List.mem_singleton] at hmem
  rcases hmem with h | h | h
  · exact absurd h (by decide)
  · exact newline_notMem_escapeChars _ h
  · exact absurd h (by decide)

theorem newline_notMem_intChars (n : Int) : '\n' ∉ intChars n := by
  have hnat : '\n' ∉ natChars n.natAbs := by
    obtain ⟨_, _, _, hdig, _⟩ := natChars_spec n.natAbs
    intro hmem
    have hd := hdig _ hmem
    revert hd
    decide
  rw [intChars]
  by_cases hn : n < 0
  · rw [if_pos hn]
    intro hmem
    simp only [List.mem_cons] at hmem
    rcases hmem with h | h
    · exact absurd h (by decide)
    · exact hnat h
  · rw [if_neg hn]; exact hnat

mutual

/-- The encoder never emits a raw newline: JSON string escaping removes
them, so each `put` writes exactly one line. -/
theorem newline_notMem_encodeVal (v : JVal) : '\n' ∉ encodeVal v := by
  cases v with
  | null => rw [encodeVal]; decide
  | bool b => cases b <;> (rw [encodeVal]; decide)
  | num n => rw [encodeVal]; exact newline_notMem_intChars n
  | str s => rw [encodeVal]; exact newline_notMem_encodeString s
  | arr vs =>
    cases vs with
    | nil => rw [encodeVal]; decide
    | cons v vs =>
      rw [encodeVal]
      intro hmem
      simp only [List.mem_cons, List.mem_append, List.mem_singleton] at hmem
      rcases hmem with h | h | h
      · exact absurd h (by decide)
      · exact newline_notMem_encodeItems v vs h
      · exact absurd h (by decide)
  | obj es =>
    cases es with
    | nil => rw [encodeVal]; decide
    | cons e es =>
      rw [encodeVal]
      intro hmem
      simp only [List.mem_cons, List.mem_append, List.mem_singleton] at hmem
      rcases hmem with h | h | h
      · exact absurd h (by decide)
      · exact newline_notMem_encodeEntries e es h
      · exact absurd h (by decide)
  termination_by sizeOf v

theorem newline_notMem_encodeItems (v : JVal) (vs : List JVal) :
    '\n' ∉ encodeItems v vs := by
  cases vs with
  | nil => rw [encodeItems]; exact newline_notMem_encodeVal v
  | cons w ws =>
    rw [encodeItems]
    intro hmem
    simp only [List.mem_append, List.mem_cons] at hmem
    rcases hmem with h | h | h | h
    · exact newline_notMem_encodeVal v h
    · exact absurd h (by decide)
    · exact absurd h (by decide)
    · exact newline_notMem_encodeItems w ws h
  termination_by sizeOf v + sizeOf vs

theorem newline_notMem_encodeEntries (e : String × JVal) (es : List (String × JVal)) :
    '\n' ∉ encodeEntries e es := by
  cases es with
  | nil =>
    rw [encodeEntries_nil]
    intro hmem
    simp only [List.mem_append, List.mem_cons] at hmem
    rcases hmem with h | h | h | h
    · exact newline_notMem_encodeString e.1 h
    · exact absurd h (by decide)
    · exact absurd h (by decide)
    · exact newline_notMem_encodeVal e.2 h
  | cons e2 es =>
    rw [encodeEntries_cons]
    intro hmem
    simp only [List.mem_append, List.mem_cons] at hmem
    rcases hmem with (h | h | h | h) | h | h | h
    · exact newline_notMem_encodeString e.1 h
    · exact absurd h (by decide)
    · exact absurd h (by decide)
    · exact newline_notMem_encodeVal e.2 h
    · exact absurd h (by decide)
    · exact absurd h (by decide)
    · exact newline_notMem_encodeEntries e2 es h
  termination_by sizeOf e + sizeOf es
  decreasing_by
    all_goals obtain ⟨k0, v0⟩ := e
    all_goals simp only [Prod.mk.sizeOf_spec, List.cons.sizeOf_spec, List.nil.sizeOf_spec]
    all_goals (have hp := jval_sizeOf_pos v0; omega)

end

/-! ### Last characters of encoder output, and Python `strip` -/

theorem getLast?_all {p : Char → Prop} : ∀ (l : List Char), l ≠ [] → (∀ c ∈ l, p c) →
    ∃ c, l.getLast? = some c ∧ p c
  | [c], _, hall => ⟨c, rfl, hall c (List.mem_singleton_self c)⟩
  | c :: d :: t, _, hall => by
    obtain ⟨e, he, hp⟩ := getLast?_all (d :: t) (by simp)
      (fun x hx => hall x (List.mem_cons_of_mem c hx))
    exact ⟨e, by rw [List.getLast?_cons_cons, he], hp⟩

/-- Encoder output ends with a literal letter, digit, quote or closer —
never whitespace. -/
theorem encodeVal_last (v : JVal) :
    ∃ c, (encodeVal v).getLast? = some c ∧ pyWs c = false := by
  cases v with
  | null => exact ⟨'l', by rw [encodeVal]; decide, by decide⟩
  | bool b =>
    cases b with
    | true => exact ⟨'e', by rw [encodeVal]; decide, by decide⟩
    | false => exact ⟨'e', by rw [encodeVal]; decide, by decide⟩
  | num n =>
    have hdigits : ∃ c, (natChars n.natAbs).getLast? = some c ∧ pyWs c = false := by
      obtain ⟨c0, t0, hrep, hdig, _⟩ := natChars_spec n.natAbs
      obtain ⟨c, hc, hd⟩ := getLast?_all (natChars n.natAbs) (by rw [hrep]; simp) hdig
      exact ⟨c, hc, (digit_not_special hd).2.2.2⟩
    rw [encodeVal, intChars]
    by_cases hn : n < 0
    · rw [if_pos hn]
      obtain ⟨c0, t0, hrep, _, _⟩ := natChars_spec n.natAbs
      obtain ⟨c, hc, hws⟩ := hdigits
      refine ⟨c, ?_, hws⟩
      rw [hrep, List.getLast?_cons_cons, ← hrep, hc]
    · rw [if_neg hn]
      exact hdigits
  | str s =>
    exact ⟨'"', by rw [encodeVal, encodeString, List.getLast?_concat], by decide⟩
  | arr vs =>
    cases vs with
    | nil => exact ⟨']', by rw [encodeVal]; decide, by decide⟩
    | cons v vs =>
      exact ⟨']', by rw [encodeVal, ← List.cons_append, List.getLast?_concat], by decide⟩
  | obj es =>
    cases es with
    | nil => exact ⟨'}', by rw [encodeVal]; decide, by decide⟩
    | cons e es =>
      exact ⟨'}', by rw [encodeVal, ← List.cons_append, List.getLast?_concat], by decide⟩

theorem dropWhile_cons_false {p : Char → Bool} {c : Char} (r : List Char)
    (h : p c = false) : List.dropWhile p (c :: r) = c :: r := by
  rw [List.dropWhile_cons, h]
  rfl

theorem dropWhile_head_false {p : Char → Bool} :
    ∀ (l : List Char), (∀ c, l.head? = some c → p c = false) → List.dropWhile p l = l
  | [], _ => rfl
  | c :: r, h => dropWhile_cons_false r (h c rfl)

/-- Stripping a `json.dumps` line of its trailing newline, as
`buffer.strip()` does in `JSONQueue.get`, recovers exactly the encoder
output: encoder output neither starts nor ends with whitespace. -/
theorem pyStrip_encode_newline (v : JVal) :
    pyStrip (encodeVal v ++ ['\n']) = encodeVal v := by
  obtain ⟨c, t, hrep, _, _, _, hpyws⟩ := encodeVal_head v
  obtain ⟨d, hlast, hdws⟩ := encodeVal_last v
  rw [pyStrip]
  have h1 : (encodeVal v ++ ['\n']).dropWhile pyWs = encodeVal v ++ ['\n'] := by
    rw [hrep, List.cons_append]
    exact dropWhile_cons_false _ hpyws
  rw [h1, List.reverse_append, List.reverse_singleton, List.singleton_append,
    List.dropWhile_cons, show pyWs '\n' = true from rfl, if_pos rfl]
  rw [dropWhile_head_false _ (fun c0 hc0 => by
      rw [List.head?_reverse, hlast] at hc0
      injection hc0 with h0
      rw [h0] at hdws
      exact hdws),
    List.reverse_reverse]

/-! ### The framed transport `JSONQueue` over a loopback pipe pair -/

/-- One direction of a loopback pipe pair: `buf` holds the characters
written by `put` and not yet consumed by `get`.  The model works at the
character level; the UTF-8 text layer of the underlying file objects
preserves characters and newlines one-to-one. -/
structure Pipe where
  buf : List Char

/-- Model of `file.readline()` on the buffered pipe: everything up to and
including the first newline (the whole buffer when it has none). -/
def readline : List Char → List Char × List Char
  | [] => ([], [])
  | c :: r =>
    if c = '\n' then ([c], r)
    else ((c :: (readline r).1), (readline r).2)

theorem readline_line (l : List Char) (rest : List Char) (h : '\n' ∉ l) :
    readline (l ++ '\n' :: rest) = (l ++ ['\n'], rest) := by
  induction l with
  | nil =>
    simp only [List.nil_append]
    rw [readline, if_pos rfl]
  | cons c t ih =>
    rw [List.cons_append, readline,
      if_neg (fun he => h (List.mem_cons.mpr (Or.inl he.symm))),
      ih (fun hm => h (List.mem_cons_of_mem c hm))]
    rw [List.cons_append]

/-- Failure modes of `JSONQueue.get` in the model: end-of-stream
(`EOFError("Pipe closed")`), an incomplete line still in transit (the
blocking loop would continue waiting), or undecodable line content
(`json.loads` raises). -/
inductive GetErr where
  | eof : GetErr
  | wouldBlock : GetErr
  | decodeError : GetErr

namespace JSONQueue

/-- Model of `JSONQueue.put(obj)` (blocking, the loopback descriptor is
writable): serialize with `json.dumps(obj) + '\n'` and append to the
stream. -/
def put (q : Pipe) (obj : JVal) : Pipe :=
  ⟨q.buf ++ (dumps obj).data ++ ['\n']⟩

/-- Model of `JSONQueue.get()` (blocking) over the loopback:
`_read_with_timeout` reads a line; an empty read is `EOFError`; a line
ending in `'\n'` is parsed with `json.loads(buffer.strip())`; a partial
line keeps the loop waiting (`wouldBlock` abstracts the unfinished
wait). -/
def get (q : Pipe) : Except GetErr (JVal × Pipe) :=
  if (readline q.buf).1 = [] then Except.error GetErr.eof
  else if (readline q.buf).1.getLast? = some '\n' then
    match loads (String.mk (pyStrip (readline q.buf).1)) with
    | some v => Except.ok (v, ⟨(readline q.buf).2⟩)
    | none => Except.error GetErr.decodeError
  else Except.error GetErr.wouldBlock

end JSONQueue

/-- C1: for every JSON-representable value `v`, `JSONQueue.put` writes
`json.dumps(v)` followed by a newline as exactly one line (the encoded
text contains no raw newline), and `JSONQueue.get` over the loopback
reads up to and including that newline, strips it, parses the line and
returns a value equal to `v`, leaving the pipe empty. -/
theorem jsonqueue_put_get_roundtrip (v : JVal) :
    '\n' ∉ (dumps v).data ∧
    (JSONQueue.put ⟨[]⟩ v).buf = (dumps v).data ++ ['\n'] ∧
    JSONQueue.get (JSONQueue.put ⟨[]⟩ v) = Except.ok (v, ⟨[]⟩) := by
  have hbuf : (JSONQueue.put ⟨[]⟩ v).buf = encodeVal v ++ '\n' :: [] := by
    rw [JSONQueue.put]
    simp only [List.nil_append]
    rfl
  refine ⟨newline_notMem_encodeVal v, hbuf, ?_⟩
  rw [JSONQueue.get, hbuf, readline_line _ _ (newline_notMem_encodeVal v)]
  dsimp only
  rw [if_neg (by simp), List.getLast?_concat, if_pos rfl, pyStrip_encode_newline,
    show String.mk (encodeVal v) = dumps v from rfl, loads_dumps]

/-! ### `JSONQueueServer`: command dispatch and responses

Python `None` and a parsed JSON `null` are one and the same object, so
`JVal.null` models Python `None` throughout: `message.get(key)` yields
it both for a missing key and for a null value, a handler returning
`None` returns `JVal.null`, and the `is not None` checks of the source
are `isNone` tests here.  Correlation ids (`request_id`) are either a
string or `None`, hence `Option String`. -/

/-- Python-`None` test, `x is None`, for parsed JSON values. -/
def isNone : JVal → Bool
  | JVal.null => true
  | _ => false

/-- Model of `message.get(key)` on a message parsed from JSON: the value
under `key` of a JSON object, `None` when absent or when the message is
not an object (the source would raise `AttributeError` there, caught by
the loop; no claim exercises it). -/
def pyGet (message : JVal) (k : String) : JVal :=
  match message with
  | JVal.obj kvs => (kvs.lookup k).getD JVal.null
  | _ => JVal.null

/-- Python `d[key] = value` on a dict modelled as a key-value list with
unique keys: replace in place when the key is present, append
otherwise. -/
def pyDictSet {α : Type} (kvs : List (String × α)) (k : String) (v : α) :
    List (String × α) :=
  if (kvs.lookup k).isSome then
    kvs.map (fun p => if p.1 = k then (k, v) else p)
  else kvs ++ [(k, v)]

/-- Python `del d[key]` / `d.pop(key)` removal on the same model. -/
def pyDictDel {α : Type} (kvs : List (String × α)) (k : String) : List (String × α) :=
  kvs.eraseP (fun p => p.1 == k)

/-- Python f-string rendering of the command in the unknown-command
reply: the string itself, or `None`'s repr.  (Only string or absent
commands are modelled; handler keys are strings, so nothing else can
match a handler.) -/
def pyFormatCommand : Option String → String
  | none => "None"
  | some c => c

/-- A raised Python exception as `_process_command` observes it:
`str(e)` and `traceback.format_exc()`. -/
structure PyExn where
  msg : String
  tb : String

/-- A registered command handler after `register_handler`'s async
wrapping: `(data, request_id)` to a returned response value or a raised
exception.  A handler that returns `None` returns `JVal.null`. -/
def Handler : Type := JVal → Option String → Except PyExn JVal

/-- The default handler takes `(command, data, request_id)`. -/
def DefaultHandler : Type := Option String → JVal → Option String → Except PyExn JVal

/-- Model of `JSONQueueServer.send_response(response, request_id)`
(lines 456-474): with a `request_id`, a dict response has `request_id`
assigned into it and any other response is wrapped as
`{"result": response, "request_id": rid}`; the message is then written
with `queue.put`. -/
def send_response (response : JVal) (request_id : Option String) : JVal :=
  match request_id with
  | some rid =>
    match response with
    | JVal.obj kvs => JVal.obj (pyDictSet kvs "request_id" (JVal.str rid))
    | r => JVal.obj [("result", r), ("request_id", JVal.str rid)]
  | none => response

/-- Model of `JSONQueueServer._process_command(command, data, request_id)`
(lines 422-454), returning the list of messages the call writes through
`send_response`/`queue.put`: run the specific handler, else the default
handler, else produce the unknown-command error response; send a reply
only when the handler's result is not `None` and a `request_id` was
supplied; on an exception send an error reply when a `request_id` was
supplied. -/
def process_command (handlers : List (String × Handler))
    (default_handler : Option DefaultHandler) (command : Option String)
    (data : JVal) (request_id : Option String) : List JVal :=
  let step : Except PyExn JVal :=
    match command.bind (fun c => handlers.lookup c) with
    | some h => h data request_id
    | none =>
      match default_handler with
      | some dh => dh command data request_id
      | none =>
        Except.ok (JVal.obj
          [("error", JVal.str ("Unknown command: " ++ pyFormatCommand command))])
  match step with
  | Except.ok response =>
    if isNone response = false ∧ request_id.isSome = true then
      [send_response response request_id]
    else []
  | Except.error e =>
    match request_id with
    | some rid =>
      [send_response (JVal.obj [("error", JVal.str e.msg), ("traceback", JVal.str e.tb)])
        (some rid)]
    | none => []

/-- C4: a received request with a command `c` that has no registered
handler, no default handler set, and a `request_id` `r` produces exactly
one reply message, `{"error": "Unknown command: " ++ c, "request_id":
r}`, and the line written for it parses back to exactly that object. -/
theorem unknown_command_error_reply (handlers : List (String × Handler))
    (c r : String) (data : JVal) (hno : handlers.lookup c = none) :
    process_command handlers none (some c) data (some r) =
      [JVal.obj [("error", JVal.str ("Unknown command: " ++ c)),
        ("request_id", JVal.str r)]] ∧
    loads (dumps (JVal.obj [("error", JVal.str ("Unknown command: " ++ c)),
        ("request_id", JVal.str r)])) =
      some (JVal.obj [("error", JVal.str ("Unknown command: " ++ c)),
        ("request_id", JVal.str r)]) := by
  constructor
  · rw [process_command.eq_def]
    simp only [Option.some_bind, hno]
    rw [if_pos ⟨rfl, rfl⟩, send_response]
    dsimp only [pyDictSet]
    rw [if_neg (by simp [List.lookup])]
    rfl
  · exact loads_dumps _

/-- Closed instance of scenario S3 discharging the hypothesis of
`unknown_command_error_reply`. -/
theorem unknown_command_error_reply_witness :
    process_command [] none (some "nope") JVal.null (some "r3") =
      [JVal.obj [("error", JVal.str ("Unknown command: " ++ "nope")),
        ("request_id", JVal.str "r3")]] ∧
    loads (dumps (JVal.obj [("error", JVal.str ("Unknown command: " ++ "nope")),
        ("request_id", JVal.str "r3")])) =
      some (JVal.obj [("error", JVal.str ("Unknown command: " ++ "nope")),
        ("request_id", JVal.str "r3")]) :=
  unknown_command_error_reply [] "nope" "r3" JVal.null rfl

/-- C8: a dispatched request whose handler — the registered specific
handler when the command has one, the default handler otherwise —
completes normally gets a reply written if and only if the handler's
result is not `None` and the request carried a `request_id`; in
particular a `None` result produces no reply even when a `request_id`
is present.  The first half covers dispatch to a specific handler (for
any default-handler setting), the second half dispatch to the default
handler. -/
theorem handler_result_controls_reply (handlers : List (String × Handler))
    (dh : DefaultHandler) (c : String) (h : Handler) (data : JVal)
    (rid : Option String) (respVal : JVal) :
    (handlers.lookup c = some h → h data rid = Except.ok respVal →
      ∀ dflt : Option DefaultHandler,
      (respVal = JVal.null → process_command handlers dflt (some c) data rid = []) ∧
      (rid = none → process_command handlers dflt (some c) data rid = []) ∧
      (∀ i, rid = some i → isNone respVal = false →
        process_command handlers dflt (some c) data rid =
          [send_response respVal (some i)])) ∧
    (handlers.lookup c = none → dh (some c) data rid = Except.ok respVal →
      (respVal = JVal.null → process_command handlers (some dh) (some c) data rid = []) ∧
      (rid = none → process_command handlers (some dh) (some c) data rid = []) ∧
      (∀ i, rid = some i → isNone respVal = false →
        process_command handlers (some dh) (some c) data rid =
          [send_response respVal (some i)])) := by
  constructor
  · intro hh hres dflt
    refine ⟨?_, ?_, ?_⟩
    · intro hn
      subst hn
      rw [process_command.eq_def]
      simp only [Option.some_bind, hh]
      rw [hres]
      dsimp only
      rw [if_neg (by simp [isNone])]
    · intro hn
      subst hn
      rw [process_command.eq_def]
      simp only [Option.some_bind, hh]
      rw [hres]
      dsimp only
      rw [if_neg (by simp)]
    · intro i hi hne
      subst hi
      rw [process_command.eq_def]
      simp only [Option.some_bind, hh]
      rw [hres]
      dsimp only
      rw [if_pos ⟨hne, rfl⟩]
  · intro hno hres
    refine ⟨?_, ?_, ?_⟩
    · intro hn
      subst hn
      rw [process_command.eq_def]
      simp only [Option.some_bind, hno]
      rw [hres]
      dsimp only
      rw [if_neg (by simp [isNone])]
    · intro hn
      subst hn
      rw [process_command.eq_def]
      simp only [Option.some_bind, hno]
      rw [hres]
      dsimp only
      rw [if_neg (by simp)]
    · intro i hi hne
      subst hi
      rw [process_command.eq_def]
      simp only [Option.some_bind, hno]
      rw [hres]
      dsimp only
      rw [if_pos ⟨hne, rfl⟩]

/-- Closed instances discharging the hypotheses of
`handler_result_controls_reply` on both dispatch paths: a specific
handler returning `None` under a live `request_id` emits nothing; a
default handler returning `None` under a live `request_id` emits
nothing; a default handler returning a value under a live `request_id`
emits exactly that reply. -/
theorem handler_result_controls_reply_witness :
    process_command [("noop", fun _ _ => Except.ok JVal.null)] none (some "noop")
      JVal.null (some "r9") = [] ∧
    process_command [] (some (fun _ _ _ => Except.ok JVal.null)) (some "misc")
      JVal.null (some "r10") = [] ∧
    process_command [] (some (fun _ _ _ => Except.ok (JVal.str "ok"))) (some "misc")
      JVal.null (some "r11") =
      [JVal.obj [("result", JVal.str "ok"), ("request_id", JVal.str "r11")]] :=
  ⟨(((handler_result_controls_reply [("noop", fun _ _ => Except.ok JVal.null)]
      (fun _ _ _ => Except.ok JVal.null) "noop"
      (fun _ _ => Except.ok JVal.null) JVal.null (some "r9") JVal.null).1
      rfl rfl none).1 rfl),
   (((handler_result_controls_reply [] (fun _ _ _ => Except.ok JVal.null) "misc"
      (fun _ _ => Except.ok JVal.null) JVal.null (some "r10") JVal.null).2
      rfl rfl).1 rfl),
   (((handler_result_controls_reply [] (fun _ _ _ => Except.ok (JVal.str "ok")) "misc"
      (fun _ _ => Except.ok JVal.null) JVal.null (some "r11") (JVal.str "ok")).2
      rfl rfl).2.2 "r11" rfl rfl)⟩

/-! ### Correlation of requests to responses -/

theorem lookup_eq_none_of_fresh {α : Type} (l : List (String × α)) (k : String)
    (h : ∀ p ∈ l, p.1 ≠ k) : l.lookup k = none := by
  induction l with
  | nil => rfl
  | cons p t ih =>
    obtain ⟨k0, v0⟩ := p
    have hne : (k == k0) = false :=
      beq_eq_false_iff_ne.mpr (Ne.symm (h (k0, v0) (List.mem_cons_self _ _)))
    rw [List.lookup, hne]
    exact ih (fun q hq => h q (List.mem_cons_of_mem _ hq))

theorem lookup_append_fresh {α : Type} (l : List (String × α)) (k : String) (v : α)
    (h : ∀ p ∈ l, p.1 ≠ k) : (l ++ [(k, v)]).lookup k = some v := by
  induction l with
  | nil =>
    rw [List.nil_append, List.lookup, beq_self_eq_true]
  | cons p t ih =>
    obtain ⟨k0, v0⟩ := p
    have hne : (k == k0) = false :=
      beq_eq_false_iff_ne.mpr (Ne.symm (h (k0, v0) (List.mem_cons_self _ _)))
    rw [List.cons_append, List.lookup, hne]
    exact ih (fun q hq => h q (List.mem_cons_of_mem _ hq))

theorem eraseP_append_fresh {α : Type} (l : List (String × α)) (k : String) (v : α)
    (h : ∀ p ∈ l, p.1 ≠ k) : (l ++ [(k, v)]).eraseP (fun p => p.1 == k) = l := by
  induction l with
  | nil =>
    rw [List.nil_append, List.eraseP_cons, beq_self_eq_true]
    rfl
  | cons p t ih =>
    have hne : (p.1 == k) = false :=
      beq_eq_false_iff_ne.mpr (h p (List.mem_cons_self _ _))
    rw [List.cons_append, List.eraseP_cons, hne, Bool.cond_false]
    rw [ih (fun q hq => h q (List.mem_cons_of_mem _ hq))]

/-- The response-correlation state of `JSONQueueServer`: the pending
futures dict `_response_futures` (correlation id to future; futures are
named by numeric ids in the model) and the monotone counter
`_next_request_id`. -/
structure ServerState where
  response_futures : List (String × Nat)
  next_request_id : Nat

/-- Model of minting a correlation id in `request`/`async_request`:
`request_id = f"py-{self._next_request_id}"` and the counter
increment, both under the lock. -/
def mint (st : ServerState) : String × ServerState :=
  ("py-" ++ toString st.next_request_id,
   { st with next_request_id := st.next_request_id + 1 })

/-- Model of Python `str.startswith(prefix)`. -/
def pyStartsWith (s pre : String) : Bool := pre.data.isPrefixOf s.data

/-- What one `_server_loop` dispatch step does with a received message. -/
inductive RouteAction where
  | completeFuture (fid : Nat) (message : JVal) : RouteAction
  | discardLateReply : RouteAction
  | processCommand (command : Option String) (data : JVal)
      (request_id : Option String) : RouteAction
  | loopError : RouteAction

/-- The `command` field as `_process_command` receives it; handler keys
are strings, so only a string command can match a handler (a message
whose command is some other JSON value is collapsed to `none` here; no
claim depends on it). -/
def commandOf (message : JVal) : Option String :=
  match pyGet message "command" with
  | JVal.str c => some c
  | _ => none

/-- Model of one dispatch step of `_server_loop` (lines 333-350) on a
received message: a truthy `request_id` that starts with `"py-"` is a
reply to a pending request — pop and complete its future, or silently
discard the message when no future is pending under that id; otherwise
the message is processed as a command in a new task.  A correlation id
that is neither a string nor absent makes `startswith` raise inside the
loop (`loopError`; the loop catches it and continues). -/
def server_loop_route (st : ServerState) (message : JVal) : ServerState × RouteAction :=
  match pyGet message "request_id" with
  | JVal.str rid =>
    if rid ≠ "" ∧ pyStartsWith rid "py-" = true then
      match st.response_futures.lookup rid with
      | some fid =>
        ({ st with response_futures := pyDictDel st.response_futures rid },
         RouteAction.completeFuture fid message)
      | none => (st, RouteAction.discardLateReply)
    else
      (st, RouteAction.processCommand (commandOf message) (pyGet message "data") (some rid))
  | JVal.null =>
    (st, RouteAction.processCommand (commandOf message) (pyGet message "data") none)
  | _ => (st, RouteAction.loopError)

/-- Model of the `asyncio.TimeoutError` branch of `_wait_for_response`
(lines 554-562): delete the pending entry when present and raise
`TimeoutError` (the returned string is the raised message). -/
def wait_for_response_timeout (st : ServerState) (request_id : String) :
    ServerState × String :=
  ({ st with response_futures :=
      if (st.response_futures.lookup request_id).isSome then
        pyDictDel st.response_futures request_id
      else st.response_futures },
   "Timeout waiting for response")

/-- The state after `request` has minted an id and recorded its future
in `_response_futures` (lines 514-522). -/
def request_inserted (st : ServerState) (fid : Nat) : ServerState :=
  { (mint st).2 with
    response_futures := pyDictSet (mint st).2.response_futures (mint st).1 fid }

/-- Model of `JSONQueueServer.request` up to and including the send
(lines 509-538): mint an id, record the future, write the message with
`queue.put`; when the send raises, the just-recorded future is deleted
and `RuntimeError` propagates.  The subsequent wait is modelled by
`wait_for_response_timeout` and `server_loop_route`. -/
def request_send (st : ServerState) (fid : Nat) (send_ok : Bool) :
    Except String String × ServerState :=
  if send_ok then (Except.ok (mint st).1, request_inserted st fid)
  else
    (Except.error "Error sending request",
     { request_inserted st fid with response_futures :=
        (if ((request_inserted st fid).response_futures.lookup (mint st).1).isSome then
          pyDictDel (request_inserted st fid).response_futures (mint st).1
        else (request_inserted st fid).response_futures) })

theorem request_inserted_futures (st : ServerState) (fid : Nat)
    (hfresh : ∀ p ∈ st.response_futures, p.1 ≠ "py-" ++ toString st.next_request_id) :
    (request_inserted st fid).response_futures =
      st.response_futures ++ [("py-" ++ toString st.next_request_id, fid)] := by
  rw [request_inserted]
  dsimp only [mint]
  rw [pyDictSet, if_neg (by rw [lookup_eq_none_of_fresh _ _ hfresh]; simp)]

theorem py_id_ne_empty (t : String) : ("py-" ++ t) ≠ "" := by
  intro h
  have hd := congrArg String.data h
  rw [String.data_append] at hd
  exact absurd hd (by simp [show ("py-").data = ['p', 'y', '-'] from rfl])

theorem py_id_startsWith (t : String) : pyStartsWith ("py-" ++ t) "py-" = true := by
  rw [pyStartsWith, String.data_append]
  simp [ List.isPrefixOf_iff_prefix]

theorem request_send_true_snd (st : ServerState) (fid : Nat) :
    (request_send st fid true).2 = request_inserted st fid := rfl

theorem wait_timeout_futures (st1 : ServerState) (rid : String) :
    (wait_for_response_timeout st1 rid).1.response_futures =
      if (st1.response_futures.lookup rid).isSome then pyDictDel st1.response_futures rid
      else st1.response_futures := rfl

/-- C9: when the send inside `request` fails, the just-inserted awaiter
is removed again before the `RuntimeError` propagates, so the pending
map after the failed call equals the pending map before it (the id
counter alone has advanced). -/
theorem request_send_failure_restores_pending (st : ServerState) (fid : Nat)
    (hfresh : ∀ p ∈ st.response_futures, p.1 ≠ "py-" ++ toString st.next_request_id) :
    (request_send st fid false).1 = Except.error "Error sending request" ∧
    (request_send st fid false).2.response_futures = st.response_futures ∧
    (request_send st fid false).2.next_request_id = st.next_request_id + 1 := by
  have hins := request_inserted_futures st fid hfresh
  refine ⟨rfl, ?_, rfl⟩
  show (if ((request_inserted st fid).response_futures.lookup (mint st).1).isSome then
      pyDictDel (request_inserted st fid).response_futures (mint st).1
    else (request_inserted st fid).response_futures) = st.response_futures
  have hm : (mint st).1 = "py-" ++ toString st.next_request_id := rfl
  rw [hm, hins, lookup_append_fresh _ _ _ hfresh]
  simp only [Option.isSome_some, if_true]
  rw [pyDictDel, eraseP_append_fresh _ _ _ hfresh]

theorem request_send_failure_restores_pending_witness :
    (request_send ⟨[], 0⟩ 7 false).1 = Except.error "Error sending request" ∧
    (request_send ⟨[], 0⟩ 7 false).2.response_futures = [] ∧
    (request_send ⟨[], 0⟩ 7 false).2.next_request_id = 1 :=
  request_send_failure_restores_pending ⟨[], 0⟩ 7
    (fun p hp => absurd hp (List.not_mem_nil p))

/-- C2: a `request` whose wait times out raises `TimeoutError` with the
pending awaiter for its correlation id removed; a reply arriving later
under that id is silently discarded by the dispatch loop with no state
change, and a subsequent request mints a fresh id and still completes
normally when its reply arrives. -/
theorem request_timeout_discards_late_reply
    (st : ServerState) (fid fid2 : Nat) (lateMsg replyMsg2 : JVal) (rid1 rid2 : String)
    (hr1 : rid1 = "py-" ++ toString st.next_request_id)
    (hr2 : rid2 = "py-" ++ toString (st.next_request_id + 1))
    (hfresh1 : ∀ p ∈ st.response_futures, p.1 ≠ rid1)
    (hfresh2 : ∀ p ∈ st.response_futures, p.1 ≠ rid2)
    (hlate : pyGet lateMsg "request_id" = JVal.str rid1)
    (hreply2 : pyGet replyMsg2 "request_id" = JVal.str rid2) :
    (request_send st fid true).1 = Except.ok rid1 ∧
    (wait_for_response_timeout (request_send st fid true).2 rid1).2 =
      "Timeout waiting for response" ∧
    (wait_for_response_timeout (request_send st fid true).2 rid1).1.response_futures =
      st.response_futures ∧
    (wait_for_response_timeout (request_send st fid true).2 rid1).1.response_futures.lookup
      rid1 = none ∧
    server_loop_route (wait_for_response_timeout (request_send st fid true).2 rid1).1 lateMsg =
      ((wait_for_response_timeout (request_send st fid true).2 rid1).1,
        RouteAction.discardLateReply) ∧
    (request_send (wait_for_response_timeout (request_send st fid true).2 rid1).1 fid2
        true).1 = Except.ok rid2 ∧
    server_loop_route
      (request_send (wait_for_response_timeout (request_send st fid true).2 rid1).1 fid2
        true).2 replyMsg2 =
      (⟨st.response_futures, st.next_request_id + 2⟩,
        RouteAction.completeFuture fid2 replyMsg2) := by
  subst hr1
  subst hr2
  have hins := request_inserted_futures st fid hfresh1
  have hdel : (wait_for_response_timeout (request_send st fid true).2
      ("py-" ++ toString st.next_request_id)).1.response_futures = st.response_futures := by
    rw [wait_timeout_futures, request_send_true_snd, hins,
        lookup_append_fresh _ _ _ hfresh1]
    simp only [Option.isSome_some, if_true]
    rw [pyDictDel, eraseP_append_fresh _ _ _ hfresh1]
  have hnone : (wait_for_response_timeout (request_send st fid true).2
      ("py-" ++ toString st.next_request_id)).1.response_futures.lookup
      ("py-" ++ toString st.next_request_id) = none := by
    rw [hdel]
    exact lookup_eq_none_of_fresh _ _ hfresh1
  have hnext : (wait_for_response_timeout (request_send st fid true).2
      ("py-" ++ toString st.next_request_id)).1.next_request_id =
      st.next_request_id + 1 := rfl
  have hfreshT : ∀ p ∈ (wait_for_response_timeout (request_send st fid true).2
      ("py-" ++ toString st.next_request_id)).1.response_futures,
      p.1 ≠ "py-" ++ toString (wait_for_response_timeout (request_send st fid true).2
        ("py-" ++ toString st.next_request_id)).1.next_request_id := by
    rw [hdel, hnext]
    exact hfresh2
  have hins2 := request_inserted_futures
    (wait_for_response_timeout (request_send st fid true).2
      ("py-" ++ toString st.next_request_id)).1 fid2 hfreshT
  rw [hdel, hnext] at hins2
  refine ⟨rfl, rfl, hdel, hnone, ?_, rfl, ?_⟩
  · rw [server_loop_route.eq_def, hlate]
    dsimp only
    rw [if_pos ⟨py_id_ne_empty _, py_id_startsWith _⟩, hnone]
  · rw [server_loop_route.eq_def, hreply2]
    dsimp only
    rw [if_pos ⟨py_id_ne_empty _, py_id_startsWith _⟩, request_send_true_snd, hins2,
        lookup_append_fresh _ _ _ hfresh2]
    dsimp only
    rw [pyDictDel, eraseP_append_fresh _ _ _ hfresh2]
    rfl

theorem request_timeout_discards_late_reply_witness :
    server_loop_route
      (wait_for_response_timeout (request_send ⟨[], 0⟩ 10 true).2 "py-0").1
      (JVal.obj [("request_id", JVal.str "py-0")]) =
      ((wait_for_response_timeout (request_send ⟨[], 0⟩ 10 true).2 "py-0").1,
        RouteAction.discardLateReply) ∧
    server_loop_route
      (request_send (wait_for_response_timeout (request_send ⟨[], 0⟩ 10 true).2 "py-0").1
        11 true).2
      (JVal.obj [("request_id", JVal.str "py-1"), ("result", JVal.num 42)]) =
      (⟨[], 2⟩,
        RouteAction.completeFuture 11
          (JVal.obj [("request_id", JVal.str "py-1"), ("result", JVal.num 42)])) :=
  ⟨(request_timeout_discards_late_reply ⟨[], 0⟩ 10 11
      (JVal.obj [("request_id", JVal.str "py-0")])
      (JVal.obj [("request_id", JVal.str "py-1"), ("result", JVal.num 42)])
      "py-0" "py-1" rfl rfl
      (fun p hp => absurd hp (List.not_mem_nil p))
      (fun p hp => absurd hp (List.not_mem_nil p)) rfl rfl).2.2.2.2.1,
   (request_timeout_discards_late_reply ⟨[], 0⟩ 10 11
      (JVal.obj [("request_id", JVal.str "py-0")])
      (JVal.obj [("request_id", JVal.str "py-1"), ("result", JVal.num 42)])
      "py-0" "py-1" rfl rfl
      (fun p hp => absurd hp (List.not_mem_nil p))
      (fun p hp => absurd hp (List.not_mem_nil p)) rfl rfl).2.2.2.2.2.2⟩

/-! ### Lifecycle: idempotent start -/

/-- The server lifecycle state that `start` (lines 268-276) touches: the
`running` flag and the number of event-loop threads that have been
created and started, so that a second thread creation would be
observable. -/
structure ServerLifecycle where
  running : Bool
  threads_started : Nat

/-- Model of `JSONQueueServer.start`: `if self.running: return`, else
set `running` and create and start the event-loop thread. -/
def start (st : ServerLifecycle) : ServerLifecycle :=
  if st.running then st
  else { running := true, threads_started := st.threads_started + 1 }

theorem start_run (st : ServerLifecycle) : (start st).running = true := by
  rw [start]
  by_cases h : st.running = true
  · rw [if_pos h]; exact h
  · rw [if_neg h]

/-- C10: `start` is idempotent — a second `start` returns immediately
without creating another thread or changing any state, and on an
already-running server `start` is the identity. -/
theorem start_idempotent (st : ServerLifecycle) :
    start (start st) = start st ∧ (st.running = true → start st = st) := by
  constructor
  · rw [start, if_pos (start_run st)]
  · intro h
    rw [start, if_pos h]

theorem start_idempotent_witness :
    start (start ⟨false, 0⟩) = start ⟨false, 0⟩ ∧ start ⟨true, 1⟩ = ⟨true, 1⟩ :=
  ⟨(start_idempotent ⟨false, 0⟩).1, (start_idempotent ⟨true, 1⟩).2 rfl⟩

/-! ### register_method: parameter mapping -/

/-- A Python method as `register_method` sees it: its signature in
order (parameter name, optional default) and its body, applied to the
bound arguments.  The wrapper's `request_id` argument plays no role in
the mapping and is omitted. -/
structure PyMethod where
  params : List (String × Option JVal)
  impl : List (String × JVal) → JVal

/-- The `kwargs` dict built by `method_wrapper` (lines 170-182): from a
dict `data`, those entries of `data` whose keys are parameter names of
the method, in parameter order; from non-`None` non-dict `data`, the
first parameter bound to `data` when the method has any parameters
(and no arguments at all otherwise); from `None`, no arguments. -/
def method_wrapper_kwargs (m : PyMethod) (data : JVal) : List (String × JVal) :=
  match data with
  | JVal.null => []
  | JVal.obj kvs => m.params.filterMap (fun p => (kvs.lookup p.1).map (fun v => (p.1, v)))
  | d =>
    match m.params with
    | [] => []
    | p :: _ => [(p.1, d)]

/-- Python keyword binding for `method(**kwargs)`: each parameter takes
its `kwargs` entry, else its declared default; a parameter with neither
raises `TypeError` (`none`). -/
def bindParams : List (String × Option JVal) → List (String × JVal) →
    Option (List (String × JVal))
  | [], _ => some []
  | p :: ps, kwargs =>
    match (kwargs.lookup p.1).or p.2 with
    | some v => (bindParams ps kwargs).map (fun r => (p.1, v) :: r)
    | none => none

/-- `method(**kwargs)`: `TypeError` on an unexpected keyword, else the
body applied to the bound arguments. -/
def callMethod (m : PyMethod) (kwargs : List (String × JVal)) : Option JVal :=
  if kwargs.all (fun kv => m.params.any (fun p => p.1 == kv.1)) then
    (bindParams m.params kwargs).map m.impl
  else none

/-- The handler `register_method` installs (lines 164-191): build
`kwargs` from `data` and call the method with them (`none` means the
call raised; the coroutine await does not change the value). -/
def method_wrapper (m : PyMethod) (data : JVal) : Option JVal :=
  callMethod m (method_wrapper_kwargs m data)

theorem bindParams_resolves (params : List (String × Option JVal))
    (kwargs : List (String × JVal))
    (h : ∀ p ∈ params, ((kwargs.lookup p.1).or p.2).isSome = true) :
    bindParams params kwargs =
      some (params.map (fun p => (p.1, ((kwargs.lookup p.1).or p.2).getD JVal.null))) := by
  induction params with
  | nil => rfl
  | cons p ps ih =>
    have hp := h p (List.mem_cons_self _ _)
    have hrec := ih (fun q hq => h q (List.mem_cons_of_mem _ hq))
    rw [List.map_cons]
    cases hv : (kwargs.lookup p.1).or p.2 with
    | none => rw [hv] at hp; exact absurd hp (by simp)
    | some v =>
      rw [bindParams.eq_def]
      dsimp only
      rw [hv, hrec]
      dsimp only [Option.map_some', Option.getD]

theorem kwargsD_all (params : List (String × Option JVal)) (kvs : List (String × JVal)) :
    (params.filterMap (fun p => (kvs.lookup p.1).map (fun v => (p.1, v)))).all
      (fun kv => params.any (fun p => p.1 == kv.1)) = true := by
  rw [List.all_eq_true]
  intro kv hkv
  rw [List.mem_filterMap] at hkv
  obtain ⟨p, hp, hf⟩ := hkv
  rw [List.any_eq_true]
  refine ⟨p, hp, ?_⟩
  cases hl : kvs.lookup p.1 with
  | none => rw [hl] at hf; exact absurd hf (by simp)
  | some v =>
    rw [hl, Option.map_some'] at hf
    injection hf with hf
    rw [← hf]
    exact beq_self_eq_true p.1

theorem lookup_kwargsD (params : List (String × Option JVal)) (kvs : List (String × JVal))
    (n : String) :
    (params.filterMap (fun p => (kvs.lookup p.1).map (fun v => (p.1, v)))).lookup n =
      if params.any (fun p => p.1 == n) then kvs.lookup n else none := by
  induction params with
  | nil => rfl
  | cons p ps ih =>
    rw [List.filterMap_cons, List.any_cons]
    cases hl : kvs.lookup p.1 with
    | none =>
      rw [Option.map_none']
      by_cases hn : p.1 = n
      · subst hn
        rw [ih, hl]
        simp
      · have hb : (p.1 == n) = false := beq_eq_false_iff_ne.mpr hn
        rw [ih, hb, Bool.false_or]
    | some v =>
      rw [Option.map_some']
      by_cases hn : n = p.1
      · subst hn
        simp [List.lookup, hl]
      · have hb : (n == p.1) = false := beq_eq_false_iff_ne.mpr hn
        have hb2 : (p.1 == n) = false := beq_eq_false_iff_ne.mpr (Ne.symm hn)
        simp only [List.lookup, hb, ih]
        rw [hb2, Bool.false_or]

/-- C3 (amended): for a mapping `data`, the method is invoked with each
parameter bound to its entry in `data` when present (unknown keys of
`data` silently ignored) and to its declared default otherwise, and the
wrapper returns the method's result; for non-mapping non-null `data`,
only when the method has at least one parameter is `data` bound to the
first parameter (the remaining ones taking their defaults) — a method
with no parameters is called with no arguments and the data is silently
dropped, where the claim says the data is passed. -/
theorem register_method_param_mapping
    (m : PyMethod) (kvs : List (String × JVal)) (d : JVal)
    (n : String) (dflt : Option JVal) (rest : List (String × Option JVal))
    (hall : ∀ p ∈ m.params, ((kvs.lookup p.1).or p.2).isSome = true)
    (hd : isNone d = false) (hnd : ∀ l, d ≠ JVal.obj l) :
    method_wrapper m (JVal.obj kvs) =
      some (m.impl (m.params.map (fun p =>
        (p.1, ((kvs.lookup p.1).or p.2).getD JVal.null)))) ∧
    (m.params = [] → method_wrapper_kwargs m d = []) ∧
    (m.params = (n, dflt) :: rest →
      method_wrapper_kwargs m d = [(n, d)] ∧
      ((∀ p ∈ rest, p.1 ≠ n) → (∀ p ∈ rest, p.2.isSome = true) →
        method_wrapper m d =
          some (m.impl ((n, d) :: rest.map (fun p => (p.1, p.2.getD JVal.null)))))) := by
  have hkd : method_wrapper_kwargs m (JVal.obj kvs) =
      m.params.filterMap (fun p => (kvs.lookup p.1).map (fun v => (p.1, v))) := rfl
  have hlk : ∀ p ∈ m.params,
      (m.params.filterMap (fun q => (kvs.lookup q.1).map (fun v => (q.1, v)))).lookup p.1 =
        kvs.lookup p.1 := by
    intro p hp
    rw [lookup_kwargsD, if_pos (List.any_eq_true.mpr ⟨p, hp, beq_self_eq_true p.1⟩)]
  have hkwargsND : ∀ hne : m.params = (n, dflt) :: rest,
      method_wrapper_kwargs m d = [(n, d)] := by
    intro hne
    cases d with
    | null => simp [isNone] at hd
    | obj l => exact absurd rfl (hnd l)
    | bool b => rw [method_wrapper_kwargs.eq_def, hne]
    | num i => rw [method_wrapper_kwargs.eq_def, hne]
    | str s => rw [method_wrapper_kwargs.eq_def, hne]
    | arr l => rw [method_wrapper_kwargs.eq_def, hne]
  refine ⟨?_, ?_, fun hne => ⟨hkwargsND hne, fun hnn hrest => ?_⟩⟩
  · rw [method_wrapper, hkd, callMethod, if_pos (kwargsD_all m.params kvs),
        bindParams_resolves _ _ (fun p hp => by rw [hlk p hp]; exact hall p hp),
        Option.map_some']
    exact congrArg some (congrArg m.impl (List.map_congr_left
      (fun p hp => by rw [hlk p hp])))
  · intro hnil
    cases d with
    | null => simp [isNone] at hd
    | obj l => exact absurd rfl (hnd l)
    | bool b => rw [method_wrapper_kwargs.eq_def, hnil]
    | num i => rw [method_wrapper_kwargs.eq_def, hnil]
    | str s => rw [method_wrapper_kwargs.eq_def, hnil]
    | arr l => rw [method_wrapper_kwargs.eq_def, hnil]
  · have hsing : ([(n, d)] : List (String × JVal)).lookup n = some d := by
      rw [List.lookup, beq_self_eq_true]
    have hnone : ∀ p ∈ rest, ([(n, d)] : List (String × JVal)).lookup p.1 = none := by
      intro p hp
      rw [List.lookup, beq_eq_false_iff_ne.mpr (hnn p hp)]
      rfl
    rw [method_wrapper, hkwargsND hne, callMethod, hne]
    rw [if_pos ?hcall]
    case hcall =>
      rw [List.all_eq_true]
      intro kv hkv
      rw [List.mem_singleton] at hkv
      subst hkv
      rw [List.any_cons]
      dsimp only
      rw [beq_self_eq_true, Bool.true_or]
    rw [bindParams_resolves ((n, dflt) :: rest) [(n, d)] ?hres]
    case hres =>
      intro p hp
      rcases List.mem_cons.mp hp with h | h
      · subst h
        dsimp only
        rw [hsing]
        rfl
      · rw [hnone p h, Option.none_or]
        exact hrest p h
    rw [Option.map_some']
    refine congrArg some (congrArg m.impl ?_)
    rw [List.map_cons]
    dsimp only
    rw [hsing]
    refine congrArg₂ List.cons rfl (List.map_congr_left (fun p hp => ?_))
    rw [hnone p hp, Option.none_or]

theorem register_method_param_mapping_witness :
    method_wrapper ⟨[("a", none), ("b", some (JVal.num 1))], fun args => JVal.obj args⟩
      (JVal.obj [("a", JVal.num 7), ("zz", JVal.num 9)]) =
      some (JVal.obj [("a", JVal.num 7), ("b", JVal.num 1)]) ∧
    method_wrapper ⟨[("a", none), ("b", some (JVal.num 1))], fun args => JVal.obj args⟩
      (JVal.num 5) = some (JVal.obj [("a", JVal.num 5), ("b", JVal.num 1)]) :=
  ⟨(register_method_param_mapping
      ⟨[("a", none), ("b", some (JVal.num 1))], fun args => JVal.obj args⟩
      [("a", JVal.num 7), ("zz", JVal.num 9)] (JVal.num 5)
      "a" none [("b", some (JVal.num 1))]
      (by intro p hp; simp at hp; rcases hp with h | h <;> subst h <;> rfl)
      rfl (fun l h => JVal.noConfusion h)).1,
   ((register_method_param_mapping
      ⟨[("a", none), ("b", some (JVal.num 1))], fun args => JVal.obj args⟩
      [("a", JVal.num 7), ("zz", JVal.num 9)] (JVal.num 5)
      "a" none [("b", some (JVal.num 1))]
      (by intro p hp; simp at hp; rcases hp with h | h <;> subst h <;> rfl)
      rfl (fun l h => JVal.noConfusion h)).2.2 rfl).2
      (by intro p hp; simp at hp; subst hp; intro h; exact absurd h (by simp))
      (by intro p hp; simp at hp; subst hp; rfl)⟩

/-- C3 counterexample: for a method with no parameters and non-mapping
non-null data, the claim says the data is passed as the first
positional parameter; instead `method_wrapper` builds an empty kwargs
dict, silently drops the data, and calls the method with no
arguments. -/
theorem register_method_zero_param_drops_data :
    method_wrapper_kwargs ⟨[], fun args => JVal.num args.length⟩ (JVal.num 5) = [] ∧
    method_wrapper ⟨[], fun args => JVal.num args.length⟩ (JVal.num 5) =
      some (JVal.num 0) :=
  ⟨rfl, rfl⟩

/-! ### The bundle loaders: linecache, compile filename, tracebacks -/

/-- Python `len` on a string counts characters. -/
def pyLen (s : String) : Nat := s.data.length

def splitlinesKeepAux : List Char → List Char → List (List Char)
  | [], acc => match acc with | [] => [] | _ => [acc.reverse]
  | c :: cs, acc =>
    if c = '\n' then (acc.reverse ++ [c]) :: splitlinesKeepAux cs []
    else splitlinesKeepAux cs (c :: acc)

/-- Python `str.splitlines(True)` for sources whose line breaks are
`\n` (the decoded module sources): the lines with their terminators
kept. -/
def splitlinesKeep (cs : List Char) : List (List Char) := splitlinesKeepAux cs []

def pySplitAux : List Char → Char → List Char → List (List Char)
  | [], _, acc => [acc.reverse]
  | c :: cs, sep, acc =>
    if c = sep then acc.reverse :: pySplitAux cs sep []
    else pySplitAux cs sep (c :: acc)

/-- Python `str.split(sep)` for a one-character separator: split at
every occurrence, keeping empty parts. -/
def pySplit (cs : List Char) (sep : Char) : List (List Char) := pySplitAux cs sep []

/-- Python `str.endswith(suffix)`. -/
def pyEndsWith (s suf : String) : Bool := suf.data.isSuffixOf s.data

/-- `os.path.dirname`: everything before the last `/` (empty when there
is none). -/
def dirname (path : String) : String :=
  String.mk ((path.data.reverse.dropWhile (fun c => c ≠ '/')).drop 1).reverse

/-- The `__package__` computation both loaders share: `''` for
`__main__`, the dotted prefix for a submodule, the name itself
otherwise. -/
def parentPackage (fullname : String) : String :=
  if fullname = "__main__" then ""
  else if fullname.data.contains '.' then
    String.mk (List.intercalate ['.'] ((pySplit fullname.data '.').dropLast))
  else fullname

/-- One `linecache.cache` entry: `(size, mtime, lines, fullname)` as
the loaders store it (`mtime` is always `None`). -/
structure LinecacheEntry where
  size : Nat
  mtime : Option Nat
  lines : List (List Char)
  fullname : String

/-- What `CustomLoader.exec_module` does to a module, observably:
which linecache key it registers the source under and with which entry,
the filename it compiles with, and the `__file__`, `__package__` and
`__path__` attributes it sets. -/
structure ExecutedModule where
  linecache_key : String
  linecache_entry : LinecacheEntry
  compile_filename : String
  file_attr : Option String
  package_attr : String
  path_attr : Option (List String)

/-- `CustomLoader.exec_module` of `src/scripts/secondaryBootstrapScript.py`
(lines 130-168): `unique_filename = self.path`, the module's declared
Path, used both as the linecache key (with itself as the entry's
filename) and as the compile filename; `__file__` is set to the
path. -/
def exec_module (source path fullname : String) : ExecutedModule :=
  { linecache_key := path
    linecache_entry := ⟨pyLen source, none, splitlinesKeep source.data, path⟩
    compile_filename := path
    file_attr := some path
    package_attr := parentPackage fullname
    path_attr := if pyEndsWith path "__init__.py" then some [dirname path] else none }

/-- `CustomLoader.exec_module` of
`src/pkg/scripts/secondaryBootstrapScript.py` (lines 109-144):
`unique_filename = f"<\x7bself.fullname\x7d>"` is used as the linecache
key and compile filename instead of the declared Path, and `__file__`
is not set. -/
def exec_module_pkg (source path fullname : String) : ExecutedModule :=
  { linecache_key := "<" ++ fullname ++ ">"
    linecache_entry :=
      ⟨pyLen source, none, splitlinesKeep source.data, "<" ++ fullname ++ ">"⟩
    compile_filename := "<" ++ fullname ++ ">"
    file_attr := none
    package_attr := parentPackage fullname
    path_attr := if pyEndsWith path "__init__.py" then some [dirname path] else none }

/-- The `File "..."` header line of a traceback frame: the interpreter
prints the code object's compile filename. -/
def tracebackFrameHeader (compile_filename : String) (line : Nat) : String :=
  "  File \x22" ++ compile_filename ++ "\x22, line " ++ toString line ++ ", in <module>"

theorem lookup_none_fresh {α : Type} (l : List (String × α)) (k : String)
    (h : l.lookup k = none) : ∀ p ∈ l, p.1 ≠ k := by
  induction l with
  | nil => intro p hp; exact absurd hp (List.not_mem_nil p)
  | cons q t ih =>
    obtain ⟨k0, v0⟩ := q
    rw [List.lookup] at h
    intro p hp
    rcases List.mem_cons.mp hp with hh | hh
    · subst hh
      intro he
      have he2 : k0 = k := he
      rw [he2, beq_self_eq_true] at h
      exact Option.noConfusion h
    · cases hb : (k == k0) with
      | true => rw [hb] at h; exact Option.noConfusion h
      | false => rw [hb] at h; exact ih h p hh

theorem lookup_map_set {α : Type} (l : List (String × α)) (k : String) (v : α)
    (h : (l.lookup k).isSome = true) :
    (l.map (fun p => if p.1 = k then (k, v) else p)).lookup k = some v := by
  induction l with
  | nil => rw [List.lookup] at h; exact absurd h (by simp)
  | cons q t ih =>
    rw [List.map_cons]
    by_cases hqk : q.1 = k
    · rw [if_pos hqk, List.lookup, beq_self_eq_true]
    · rw [if_neg hqk, List.lookup, beq_eq_false_iff_ne.mpr (fun he => hqk he.symm)]
      obtain ⟨k0, v0⟩ := q
      rw [List.lookup, beq_eq_false_iff_ne.mpr (fun he => hqk he.symm)] at h
      exact ih h

/-- `d[k] = v` makes `d[k]` resolve to `v`, whether or not `k` was
present. -/
theorem pyDictSet_lookup_self {α : Type} (l : List (String × α)) (k : String) (v : α) :
    (pyDictSet l k v).lookup k = some v := by
  by_cases h : (l.lookup k).isSome = true
  · rw [pyDictSet, if_pos h]
    exact lookup_map_set l k v h
  · rw [pyDictSet, if_neg h]
    exact lookup_append_fresh l k v
      (lookup_none_fresh l k (Option.not_isSome_iff_eq_none.mp h))

/-- C5 (amended): the loader of `src/scripts/secondaryBootstrapScript.py`
registers the decoded source in the line-cache under the module's
declared Path, compiles with that Path as filename, the updated cache
resolves the compile filename to that source, and a traceback frame
from the module names the Path.  (The loader variant of
`src/pkg/scripts/secondaryBootstrapScript.py` does not: it uses
`<fullname>`, see the counterexample.) -/
theorem exec_module_linecache_path (source path fullname : String)
    (cache : List (String × LinecacheEntry)) (line : Nat) :
    (exec_module source path fullname).linecache_key = path ∧
    (exec_module source path fullname).compile_filename = path ∧
    (exec_module source path fullname).linecache_entry =
      ⟨pyLen source, none, splitlinesKeep source.data, path⟩ ∧
    (pyDictSet cache (exec_module source path fullname).linecache_key
        (exec_module source path fullname).linecache_entry).lookup
      (exec_module source path fullname).compile_filename =
      some ⟨pyLen source, none, splitlinesKeep source.data, path⟩ ∧
    tracebackFrameHeader (exec_module source path fullname).compile_filename line =
      "  File \x22" ++ path ++ "\x22, line " ++ toString line ++ ", in <module>" :=
  ⟨rfl, rfl, rfl, pyDictSet_lookup_self cache path _, rfl⟩

/-- C5 counterexample: the `src/pkg/scripts` loader variant registers
and compiles module `P.Q` (declared Path `/app/P/Q.py`) under the
synthetic name `<P.Q>`, not under its declared Path, so a traceback
frame from it names `<P.Q>`. -/
theorem exec_module_pkg_key_not_path :
    (exec_module_pkg "raise ValueError()\n" "/app/P/Q.py" "P.Q").linecache_key =
      "<P.Q>" ∧
    (exec_module_pkg "raise ValueError()\n" "/app/P/Q.py" "P.Q").compile_filename =
      "<P.Q>" ∧
    "<P.Q>" ≠ "/app/P/Q.py" ∧
    tracebackFrameHeader
      (exec_module_pkg "raise ValueError()\n" "/app/P/Q.py" "P.Q").compile_filename 1 =
      "  File \x22<P.Q>\x22, line 1, in <module>" :=
  ⟨rfl, rfl, by decide, rfl⟩

/-! ### Blocking put with a timeout -/

/-- Outcome of a write attempt: completed after waiting `elapsed` ms,
or failed with `TimeoutError` after `elapsed` ms. -/
inductive WriteResult where
  | written (elapsed : Nat) : WriteResult
  | timedOut (elapsed : Nat) : WriteResult
deriving DecidableEq

/-- Model of `JSONQueue._write_with_timeout` (lines 43-57) against a
descriptor that becomes writable `readyAfter` ms after the call
(`readyAfter = 0`: the first `write`/`flush` succeeds).  When the first
attempt raises `BlockingIOError` and a timeout was given, the code
raises `TimeoutError("Write operation timed out")` at once, without
having waited; only with `timeout=None` does it retry (1 ms sleeps)
until the descriptor is ready. -/
def write_with_timeout (readyAfter : Nat) (timeout : Option Nat) : WriteResult :=
  if readyAfter = 0 then WriteResult.written 0
  else
    match timeout with
    | some _ => WriteResult.timedOut 0
    | none => WriteResult.written readyAfter

/-- Modelled from the spec and claim (and matching what the read side
`_read_with_timeout`, lines 66-82, actually does with its
`elapsed >= timeout` check): wait up to `timeout` ms for the
descriptor, completing as soon as it is ready, and fail with
`TimeoutError` only after `timeout` has elapsed without the write
completing. -/
def write_with_timeout_claimed (readyAfter : Nat) (timeout : Option Nat) : WriteResult :=
  match timeout with
  | none => WriteResult.written readyAfter
  | some t =>
    if readyAfter ≤ t then WriteResult.written readyAfter
    else WriteResult.timedOut t

/-- C6 (code bug): with a 5000 ms timeout and a descriptor that becomes
writable after 1 ms, the specified behaviour is to complete the write
after 1 ms, but `_write_with_timeout` raises `TimeoutError` immediately
on the first `BlockingIOError`, having waited 0 ms; the two functions
agree everywhere only when no timeout is given. -/
theorem write_with_timeout_raises_immediately :
    write_with_timeout 1 (some 5000) = WriteResult.timedOut 0 ∧
    write_with_timeout_claimed 1 (some 5000) = WriteResult.written 1 ∧
    write_with_timeout 1 (some 5000) ≠ write_with_timeout_claimed 1 (some 5000) ∧
    (∀ readyAfter : Nat,
      write_with_timeout readyAfter none = write_with_timeout_claimed readyAfter none) := by
  refine ⟨rfl, rfl, by decide, ?_⟩
  intro readyAfter
  by_cases h : readyAfter = 0
  · subst h; rfl
  · rw [write_with_timeout, if_neg h]; rfl

/-! ### The REPL capture flag -/

/-- `DELIMITER = "\x01\x02\x03\n"` from `repl.py`. -/
def DELIMITER : List Char := ['\x01', '\x02', '\x03', '\n']

/-- `"__CAPTURE_COMBINED__ ="`, the literal the REPL loop tests with
`code_buffer.startswith`. -/
def CAPTURE_PREFIX : List Char := ("__CAPTURE_COMBINED__ =").data

/-- The inner read loop of `run_repl` (lines 183-189): `readline` into
`code_buffer` counting lines until a line ends with the delimiter,
which is stripped from the buffer (`line[:-len(DELIMITER)]`).  Returns
the complete submission, the line count, and the unread input; fueled
by the number of reads (`none` = the input never completes a
submission). -/
def readSubmission : Nat → List Char → List Char → Nat → Option (List Char × Nat × List Char)
  | 0, _, _, _ => none
  | f + 1, input, buf, count =>
    if DELIMITER.isSuffixOf (readline input).1 then
      some (buf ++ (readline input).1.take ((readline input).1.length - DELIMITER.length),
        count + 1, (readline input).2)
    else readSubmission f (readline input).2 (buf ++ (readline input).1) (count + 1)

/-- Python `eval` restricted to the boolean literals the flag update is
meant to receive. -/
def pyEvalBool (cs : List Char) : Option Bool :=
  if cs = ("True").data then some true
  else if cs = ("False").data then some false
  else none

/-- What `run_repl` does with a completed submission. -/
inductive ReplAction where
  | setCapture (value : Bool) : ReplAction
  | runCode (code : List Char) : ReplAction
  | evalError : ReplAction
deriving DecidableEq

/-- The dispatch on a completed submission (lines 192-201): only when
the whole buffer starts with the capture prefix AND exactly one line
was read is the flag updated, with
`eval(code_buffer.split("=")[1].strip())`; otherwise the buffer is fed
to the interpreter (`repl.conrun`). -/
def repl_step (buf : List Char) (linecount : Nat) : ReplAction :=
  if CAPTURE_PREFIX.isPrefixOf buf ∧ linecount = 1 then
    match (pySplit buf '=').drop 1 with
    | [] => ReplAction.evalError
    | part :: _ =>
      match pyEvalBool (pyStrip part) with
      | some b => ReplAction.setCapture b
      | none => ReplAction.evalError
  else ReplAction.runCode buf

theorem pySplitAux_no_sep (l : List Char) (sep : Char) (acc : List Char)
    (h : sep ∉ l) : pySplitAux l sep acc = [acc.reverse ++ l] := by
  induction l generalizing acc with
  | nil => rw [pySplitAux, List.append_nil]
  | cons c cs ih =>
    rw [pySplitAux.eq_def]
    dsimp only
    rw [if_neg (fun he => h (List.mem_cons.mpr (Or.inl he.symm))),
      ih _ (fun hm => h (List.mem_cons_of_mem c hm)),
      List.reverse_cons, List.append_assoc, List.singleton_append]

theorem pySplitAux_through (l : List Char) (sep : Char) (acc : List Char)
    (t : List Char) (h : sep ∉ l) :
    pySplitAux (l ++ sep :: t) sep acc = (acc.reverse ++ l) :: pySplitAux t sep [] := by
  induction l generalizing acc with
  | nil =>
    rw [List.nil_append, pySplitAux.eq_def]
    dsimp only
    rw [if_pos rfl, List.append_nil]
  | cons c cs ih =>
    rw [List.cons_append, pySplitAux.eq_def]
    dsimp only
    rw [if_neg (fun he => h (List.mem_cons.mpr (Or.inl he.symm))),
      ih _ (fun hm => h (List.mem_cons_of_mem c hm)),
      List.reverse_cons, List.append_assoc, List.singleton_append]

/-- C7 (amended): a SINGLE-LINE submission `__CAPTURE_COMBINED__ =
<rhs>` (rhs a boolean literal with no `=` inside) is read as one line
with the delimiter stripped, and the dispatch sets the combined-capture
flag to the evaluated literal instead of executing the buffer.  (A
multi-line submission whose first line starts with the prefix is
executed as code instead — the `linecount == 1` guard — see the
counterexample.) -/
theorem capture_flag_single_line (f : Nat) (rhs rest : List Char) (b : Bool)
    (hnl : '\n' ∉ rhs) (heq : '=' ∉ rhs)
    (hval : pyEvalBool (pyStrip rhs) = some b) :
    readSubmission (f + 1) (CAPTURE_PREFIX ++ rhs ++ DELIMITER ++ rest) [] 0 =
      some (CAPTURE_PREFIX ++ rhs, 1, rest) ∧
    repl_step (CAPTURE_PREFIX ++ rhs) 1 = ReplAction.setCapture b := by
  have hprefnl : '\n' ∉ CAPTURE_PREFIX ++ rhs ++ ['\x01', '\x02', '\x03'] := by
    intro hm
    rcases List.mem_append.mp hm with hm | hm
    · rcases List.mem_append.mp hm with hm | hm
      · revert hm; decide
      · exact hnl hm
    · revert hm; decide
  have hline : readline (CAPTURE_PREFIX ++ rhs ++ DELIMITER ++ rest) =
      ((CAPTURE_PREFIX ++ rhs ++ ['\x01', '\x02', '\x03']) ++ ['\n'], rest) := by
    have hshape : CAPTURE_PREFIX ++ rhs ++ DELIMITER ++ rest =
        (CAPTURE_PREFIX ++ rhs ++ ['\x01', '\x02', '\x03']) ++ '\n' :: rest := by
      simp only [DELIMITER, List.append_assoc, List.cons_append, List.nil_append]
    rw [hshape]
    exact readline_line _ rest hprefnl
  constructor
  · rw [readSubmission, hline]
    have hsuf : DELIMITER.isSuffixOf
        ((CAPTURE_PREFIX ++ rhs ++ ['\x01', '\x02', '\x03']) ++ ['\n']) = true := by
      have hshape2 : (CAPTURE_PREFIX ++ rhs ++ ['\x01', '\x02', '\x03']) ++ ['\n'] =
          (CAPTURE_PREFIX ++ rhs) ++ DELIMITER := by
        simp only [DELIMITER, List.append_assoc, List.cons_append, List.nil_append]
      rw [hshape2]
      simp only [List.isSuffixOf_iff_suffix]
      exact List.suffix_append _ _
    rw [if_pos hsuf]
    dsimp only
    have hshape2 : (CAPTURE_PREFIX ++ rhs ++ ['\x01', '\x02', '\x03']) ++ ['\n'] =
        (CAPTURE_PREFIX ++ rhs) ++ DELIMITER := by
      simp only [DELIMITER, List.append_assoc, List.cons_append, List.nil_append]
    rw [hshape2]
    have hlen : ((CAPTURE_PREFIX ++ rhs) ++ DELIMITER).length - DELIMITER.length =
        (CAPTURE_PREFIX ++ rhs).length := by
      rw [List.length_append]
      omega
    rw [hlen, List.take_left' rfl, List.nil_append]
  · rw [repl_step,
      if_pos ⟨by simp only [ List.isPrefixOf_iff_prefix]; exact List.prefix_append _ _, rfl⟩]
    have hsplit : pySplit (CAPTURE_PREFIX ++ rhs) '=' =
        [("__CAPTURE_COMBINED__ ").data, rhs] := by
      have hshape : CAPTURE_PREFIX ++ rhs =
          ("__CAPTURE_COMBINED__ ").data ++ '=' :: rhs := by
        simp only [CAPTURE_PREFIX]
        rw [List.append_cons]
        rfl
      rw [pySplit, hshape, pySplitAux_through _ _ _ _ (by decide),
        pySplitAux_no_sep _ _ _ heq]
      simp only [List.reverse_nil, List.nil_append]
    rw [hsplit]
    dsimp only [List.drop]
    rw [hval]

theorem capture_flag_single_line_witness :
    readSubmission 1 (("__CAPTURE_COMBINED__ = True\x01\x02\x03\n").data) [] 0 =
      some (("__CAPTURE_COMBINED__ = True").data, 1, []) ∧
    repl_step (("__CAPTURE_COMBINED__ = True").data) 1 = ReplAction.setCapture true :=
  capture_flag_single_line 0 ((" True").data) [] true (by decide) (by decide) rfl

/-- C7 counterexample: a two-line submission whose FIRST line begins
with the capture prefix is not treated as a flag update — the
`linecount == 1` guard fails and the whole buffer is executed as code —
although the claim says every submission whose first line begins with
the prefix updates the flag. -/
theorem capture_flag_multiline_counterexample :
    readSubmission 2 (("__CAPTURE_COMBINED__ = False\nprint(1)\x01\x02\x03\n").data) [] 0 =
      some (("__CAPTURE_COMBINED__ = False\nprint(1)").data, 2, []) ∧
    CAPTURE_PREFIX.isPrefixOf (("__CAPTURE_COMBINED__ = False\nprint(1)").data) = true ∧
    repl_step (("__CAPTURE_COMBINED__ = False\nprint(1)").data) 2 =
      ReplAction.runCode (("__CAPTURE_COMBINED__ = False\nprint(1)").data) ∧
    (∀ b, ReplAction.runCode (("__CAPTURE_COMBINED__ = False\nprint(1)").data) ≠
      ReplAction.setCapture b) :=
  ⟨by decide, by decide, by decide,
   fun b h => ReplAction.noConfusion h⟩

end Jumpboot
